import Mathlib

/-!
# ACP watcher and route builder (`pkg/acp/watcher.go`)

A shallow embedding of `Watcher.Run`, `NewWatcher` and `buildRoutes`.

* Go maps `map[string]V` are `GoMap V`: `none` is the nil map, `some l` a
  non-nil map whose entries are the association list `l` (keys pairwise
  distinct).  The order of `l` is the order in which `range` visits the
  entries; `reflect.DeepEqual` does not look at it.
* Go `error` values are `GoError`; `(T, error)` results are `Except GoError T`.
* Go strings are `String`s, so policy names are valid Unicode text.
* The collaborators that are not part of `watcher.go` (the handler factories
  of the `jwt`, `basicauth` and `digestauth` packages, the payload types of
  `Config`, `Client.GetACPs`, the callbacks) are parameters.
* Effects (`log` calls, `GetACPs`, callback invocations) are recorded as
  `Event`s in the loop state; callbacks thread an explicit world `σ`.
-/

namespace Acp

/-! ## Go runtime values -/

/-- Go `error` values, by the two constructors `watcher.go` uses:
`errors.New(s)` and `fmt.Errorf` with one `%w` operand.  Errors coming from
collaborators are represented by these same shapes. -/
inductive GoError where
  | errorString (s : String)
  | wrapError (msg : String) (err : GoError)
deriving DecidableEq, Repr

/-- The `Error()` method: the message of an error. -/
def GoError.Error : GoError → String
  | .errorString s => s
  | .wrapError msg _ => msg

/-- The `Unwrap()` step of `errors.Unwrap`: the wrapped cause, if any. -/
def GoError.Unwrap : GoError → Option GoError
  | .errorString _ => none
  | .wrapError _ err => some err

/-- Go `errors.New`. -/
def errorsNew (s : String) : GoError := .errorString s

/-- A Go map with string keys: `none` is the nil map, `some l` a non-nil map
with entries `l`. -/
abbrev GoMap (V : Type) := Option (List (String × V))

/-- The entries visited by `for k, v := range m` (none for a nil map). -/
def GoMap.entries {V : Type} : GoMap V → List (String × V)
  | none => []
  | some l => l

/-- Well-formed map: the keys are pairwise distinct. -/
def GoMap.WF {V : Type} (m : GoMap V) : Prop := (m.entries.map Prod.fst).Nodup

instance {V : Type} (m : GoMap V) : Decidable m.WF := by
  unfold GoMap.WF; infer_instance

/-- Go `reflect.DeepEqual` on two maps: both nil or both non-nil, same
length, and every key of the first is a key of the second with a deeply
equal value.  Deep equality of the values is `==` on `V`. -/
def deepEqual {V : Type} [DecidableEq V] : GoMap V → GoMap V → Bool
  | none, none => true
  | some a, some b =>
    a.length == b.length && a.all (fun kv => b.lookup kv.1 == some kv.2)
  | _, _ => false

/-! ## `strconv.Quote`, used by the `%q` verb -/

/-- One lower-case hexadecimal digit. -/
def hexDigit (n : Nat) : Char := "0123456789abcdef".data.getD (n % 16) '0'

/-- The number `n` as `width` lower-case hexadecimal digits. -/
def hexDigits (width n : Nat) : List Char :=
  (List.range width).reverse.map (fun i => hexDigit (n / 16 ^ i))

/-- Go `strconv.IsPrint`: exact on Latin-1, given by the Unicode table
`tab` above it. -/
def IsPrint (tab : Char → Bool) (r : Char) : Bool :=
  if r.toNat ≤ 0xFF then
    if 0x20 ≤ r.toNat ∧ r.toNat < 0x7F then true
    else if 0xA1 ≤ r.toNat then r.toNat != 0xAD
    else false
  else tab r

/-- Go `strconv.appendEscapedRune` with quote `"`, not ASCII-only. -/
def appendEscapedRune (tab : Char → Bool) (r : Char) : List Char :=
  if r = '"' ∨ r = '\\' then ['\\', r]
  else if IsPrint tab r then [r]
  else if r.toNat = 0x07 then ['\\', 'a']
  else if r.toNat = 0x08 then ['\\', 'b']
  else if r.toNat = 0x0C then ['\\', 'f']
  else if r.toNat = 0x0A then ['\\', 'n']
  else if r.toNat = 0x0D then ['\\', 'r']
  else if r.toNat = 0x09 then ['\\', 't']
  else if r.toNat = 0x0B then ['\\', 'v']
  else if r.toNat < 0x20 ∨ r.toNat = 0x7F then '\\' :: 'x' :: hexDigits 2 r.toNat
  else if r.toNat < 0x10000 then '\\' :: 'u' :: hexDigits 4 r.toNat
  else '\\' :: 'U' :: hexDigits 8 r.toNat

/-- Go `strconv.Quote`, the rendering of a string operand under `%q`. -/
def strconvQuote (tab : Char → Bool) (s : String) : String :=
  ⟨'"' :: (s.data.flatMap (appendEscapedRune tab)) ++ ['"']⟩

/-- Substring test on strings (Go `strings.Contains s sub`). -/
def Contains (s sub : String) : Prop := sub.data <:+: s.data

instance (s sub : String) : Decidable (Contains s sub) := by
  unfold Contains; infer_instance

/-! ## `net/http.ServeMux` -/

/-- The pattern table of a `http.ServeMux`, in registration order. -/
structure ServeMux (H : Type) where
  m : List (String × H)
deriving DecidableEq, Repr

/-- Go `http.NewServeMux`. -/
def NewServeMux {H : Type} : ServeMux H := ⟨[]⟩

/-- What a call may do: return a value, return a Go error, or panic. -/
inductive Outcome (α : Type) where
  | ok (a : α)
  | error (err : GoError)
  | panic (msg : String)
deriving DecidableEq, Repr

/-- Go `(*ServeMux).Handle`, as in the Go releases before 1.22 (patterns are
plain strings): panics on an empty pattern and on a pattern that is already
registered, otherwise adds the entry.  Its third panic, on a nil handler,
cannot occur here: a value of `H` is a handler. -/
def ServeMux.Handle {H : Type} (mux : ServeMux H) (pattern : String) (handler : H) :
    Outcome (ServeMux H) :=
  if pattern = "" then .panic "http: invalid pattern"
  else if (mux.m.lookup pattern).isSome then
    .panic ("http: multiple registrations for " ++ pattern)
  else .ok ⟨mux.m ++ [(pattern, handler)]⟩

/-- The patterns registered in a mux. -/
def ServeMux.paths {H : Type} (mux : ServeMux H) : List String := mux.m.map Prod.fst

/-- The handler registered for exactly this pattern. -/
def ServeMux.handler {H : Type} (mux : ServeMux H) (pattern : String) : Option H :=
  mux.m.lookup pattern

/-! ## The data model -/

/-- Modelled from the spec: the declaration of `acp.Config` is not in
`watcher.go`; `buildRoutes` reads its three pointer fields `JWT`, `BasicAuth`
and `DigestAuth` (nil = not populated).  The pointee types `jwt.Config`,
`basicauth.Config`, `digestauth.Config` are the parameters `J`, `B`, `D`. -/
structure Config (J B D : Type) where
  JWT : Option J
  BasicAuth : Option B
  DigestAuth : Option D
deriving DecidableEq, Repr

/-- The value `map[string]Config`. -/
abbrev ACPs (J B D : Type) := GoMap (Config J B D)

/-- Number of populated variants of a config. -/
def Config.populated {J B D : Type} (cfg : Config J B D) : Nat :=
  (if cfg.JWT.isSome then 1 else 0) + (if cfg.BasicAuth.isSome then 1 else 0)
    + (if cfg.DigestAuth.isSome then 1 else 0)

/-- Type `UpdatedACPFunc`: a callback, acting on the world `σ` and returning
its error (`none` for nil). -/
abbrev UpdatedACPFunc (σ J B D : Type) := ACPs J B D → σ → Option GoError × σ

/-- Type `Watcher`.  `refreshInterval` is a `time.Duration` (nanoseconds). -/
structure Watcher (C σ J B D : Type) where
  refreshInterval : Int
  client : C
  updateACPFuncs : List (UpdatedACPFunc σ J B D)

/-- Go `time.Second`, in nanoseconds. -/
def timeSecond : Int := 1000000000

/-- Go `NewWatcher`. -/
def NewWatcher {C σ J B D : Type} (client : C)
    (updateACPFuncs : List (UpdatedACPFunc σ J B D)) : Watcher C σ J B D :=
  { refreshInterval := 30 * timeSecond
    client := client
    updateACPFuncs := updateACPFuncs }

/-! ## `Watcher.Run` -/

/-- The observable effects of `Run`. -/
inductive Event (J B D : Type) where
  | logInfo (msg : String)
  | logDebug (msg : String)
  | logError (errs : List GoError) (msg : String)
  | getACPs
  | call (i : Nat) (cfgs : ACPs J B D)
deriving DecidableEq, Repr

/-- The variables of the loop: `previousACPs`, the callbacks' world and the
effects so far. -/
structure LoopState (σ J B D : Type) where
  previousACPs : ACPs J B D
  world : σ
  trace : List (Event J B D)

/-- State of the callback loop (lines 62-68): world, `errs`, effects. -/
structure NotifyState (σ J B D : Type) where
  world : σ
  errs : List GoError
  trace : List (Event J B D)

/-- The loop `for _, fn := range w.updateACPFuncs`, from index `i` on. -/
def notify {σ J B D : Type} (acps : ACPs J B D) :
    List (UpdatedACPFunc σ J B D) → Nat → NotifyState σ J B D → NotifyState σ J B D
  | [], _, st => st
  | fn :: rest, i, st =>
    let r := fn acps st.world
    let errs := match r.1 with
      | some err => st.errs ++ [err]
      | none => st.errs
    notify acps rest (i + 1)
      { world := r.2, errs := errs, trace := st.trace ++ [Event.call i acps] }

/-- The body of `case <-t.C:` for one tick, given what `GetACPs` returns. -/
def tickCase {C σ J B D : Type} [DecidableEq J] [DecidableEq B] [DecidableEq D]
    (w : Watcher C σ J B D) (fetch : Except GoError (ACPs J B D))
    (s : LoopState σ J B D) : LoopState σ J B D :=
  match fetch with
  | .error err =>
    { s with trace := s.trace ++ [Event.getACPs, Event.logError [err] "Unable to read ACP"] }
  | .ok acps =>
    if !deepEqual s.previousACPs acps then
      let st := notify acps w.updateACPFuncs 0
        { world := s.world, errs := [],
          trace := s.trace ++ [Event.getACPs, Event.logDebug "Executing ACP watcher callbacks"] }
      let trace := if st.errs.length > 0 then
          st.trace ++ [Event.logError st.errs "Unable to execute ACP watcher callbacks"]
        else st.trace
      { previousACPs := acps, world := st.world, trace := trace }
    else
      { s with trace := s.trace ++ [Event.getACPs] }

/-- The case taken by one `select`: the ticker fired (with the result
`GetACPs` then gives) or `ctx.Done()` is closed. -/
inductive SelectCase (J B D : Type) where
  | tick (fetch : Except GoError (ACPs J B D))
  | done

/-- Where `Run` is after a finite sequence of `select` outcomes: returned,
or back in the `select` waiting. -/
inductive Status where
  | waiting
  | returned
deriving DecidableEq, Repr

/-- The `for { select { ... } }` loop over a sequence of `select` outcomes. -/
def loop {C σ J B D : Type} [DecidableEq J] [DecidableEq B] [DecidableEq D]
    (w : Watcher C σ J B D) :
    List (SelectCase J B D) → LoopState σ J B D → Status × LoopState σ J B D
  | [], s => (.waiting, s)
  | .done :: _, s => (.returned, s)
  | .tick fetch :: rest, s => loop w rest (tickCase w fetch s)

/-- The state in which `Run` enters its loop: `previousACPs` is the nil map. -/
def initState {σ J B D : Type} (world : σ) : LoopState σ J B D :=
  { previousACPs := none, world := world, trace := [Event.logInfo "Starting ACP watcher"] }

/-- Go `(*Watcher).Run`, over a sequence of `select` outcomes. -/
def Run {C σ J B D : Type} [DecidableEq J] [DecidableEq B] [DecidableEq D]
    (w : Watcher C σ J B D) (world : σ) (sched : List (SelectCase J B D)) :
    Status × LoopState σ J B D :=
  loop w sched (initState world)

/-- The callback invocations among a list of effects, as (index, argument). -/
def calls {J B D : Type} : List (Event J B D) → List (Nat × ACPs J B D)
  | [] => []
  | Event.call i cfgs :: rest => (i, cfgs) :: calls rest
  | _ :: rest => calls rest

/-- The effects of one cycle whose fetch succeeds with a changed set, for `n`
callbacks of which those in `errs` failed: the fetch, the debug line, one
`call` per callback in registration order, and the batch log line when
`errs` is not empty. -/
def changedEvents {J B D : Type} (acps : ACPs J B D) (n : Nat) (errs : List GoError) :
    List (Event J B D) :=
  [Event.getACPs, Event.logDebug "Executing ACP watcher callbacks"]
    ++ (List.range n).map (fun k => Event.call k acps)
    ++ (if errs.length > 0 then
          [Event.logError errs "Unable to execute ACP watcher callbacks"] else [])

/-! ## `buildRoutes` -/

/-- The collaborators of `buildRoutes`: `jwt.NewHandler`,
`basicauth.NewHandler`, `digestauth.NewHandler`, and the Unicode table
behind `%q`. -/
structure Deps (J B D H : Type) where
  jwtNewHandler : J → String → Except GoError H
  basicauthNewHandler : B → String → Except GoError H
  digestauthNewHandler : D → String → Except GoError H
  printTable : Char → Bool

/-- Go `fmt.Errorf("create %q " ++ kind ++ " ACP handler: %w", name, err)`. -/
def wrapCreate {J B D H : Type} (deps : Deps J B D H) (kind name : String) (err : GoError) :
    GoError :=
  .wrapError ("create " ++ strconvQuote deps.printTable name ++ " " ++ kind
    ++ " ACP handler: " ++ err.Error) err

/-- The body of the `range` loop of `buildRoutes` for one entry. -/
def buildEntry {J B D H : Type} (deps : Deps J B D H) (mux : ServeMux H)
    (name : String) (cfg : Config J B D) : Outcome (ServeMux H) :=
  match cfg.JWT, cfg.BasicAuth, cfg.DigestAuth with
  | some j, _, _ =>
    match deps.jwtNewHandler j name with
    | .error err => .error (wrapCreate deps "JWT" name err)
    | .ok jwtHandler => mux.Handle ("/" ++ name) jwtHandler
  | none, some b, _ =>
    match deps.basicauthNewHandler b name with
    | .error err => .error (wrapCreate deps "basic auth" name err)
    | .ok h => mux.Handle ("/" ++ name) h
  | none, none, some d =>
    match deps.digestauthNewHandler d name with
    | .error err => .error (wrapCreate deps "digest auth" name err)
    | .ok h => mux.Handle ("/" ++ name) h
  | none, none, none => .error (errorsNew "unknown ACP handler type")

/-- The `range` loop of `buildRoutes` over the entries still to visit. -/
def buildLoop {J B D H : Type} (deps : Deps J B D H) :
    List (String × Config J B D) → ServeMux H → Outcome (ServeMux H)
  | [], mux => .ok mux
  | (name, cfg) :: rest, mux =>
    match buildEntry deps mux name cfg with
    | .ok mux1 => buildLoop deps rest mux1
    | .error err => .error err
    | .panic msg => .panic msg

/-- Go `buildRoutes`. -/
def buildRoutes {J B D H : Type} (deps : Deps J B D H) (cfgs : ACPs J B D) :
    Outcome (ServeMux H) :=
  buildLoop deps cfgs.entries NewServeMux

/-- The factory call that the `switch` of `buildRoutes` selects for a
config, with the kind named in its error message: the first populated variant
in the order of the `case`s; `none` in the `default` case. -/
def selectFactory {J B D H : Type} (deps : Deps J B D H) (name : String)
    (cfg : Config J B D) : Option (String × Except GoError H) :=
  match cfg.JWT, cfg.BasicAuth, cfg.DigestAuth with
  | some j, _, _ => some ("JWT", deps.jwtNewHandler j name)
  | none, some b, _ => some ("basic auth", deps.basicauthNewHandler b name)
  | none, none, some d => some ("digest auth", deps.digestauthNewHandler d name)
  | none, none, none => none

/-- The route an entry contributes when its selected factory succeeds. -/
def entryRoute {J B D H : Type} (deps : Deps J B D H) (e : String × Config J B D) :
    Option (String × H) :=
  match selectFactory deps e.1 e.2 with
  | some (_, .ok h) => some ("/" ++ e.1, h)
  | _ => none

/-- The error `buildRoutes` returns at an entry it cannot build. -/
def entryError {J B D H : Type} (deps : Deps J B D H) (e : String × Config J B D) :
    Option GoError :=
  match selectFactory deps e.1 e.2 with
  | none => some (errorsNew "unknown ACP handler type")
  | some (kind, .error err) => some (wrapCreate deps kind e.1 err)
  | some (_, .ok _) => none

/-- Every factory of a populated variant of the entry succeeds. -/
def FactoriesSucceed {J B D H : Type} (deps : Deps J B D H) (e : String × Config J B D) :
    Prop :=
  (∀ j, e.2.JWT = some j → ∃ h, deps.jwtNewHandler j e.1 = .ok h)
  ∧ (∀ b, e.2.BasicAuth = some b → ∃ h, deps.basicauthNewHandler b e.1 = .ok h)
  ∧ (∀ d, e.2.DigestAuth = some d → ∃ h, deps.digestauthNewHandler d e.1 = .ok h)

/-- A name that `%q` renders unchanged between the quotes: printable
characters other than the double quote and the backslash. -/
def PlainName (tab : Char → Bool) (name : String) : Prop :=
  ∀ c ∈ name.data, c ≠ '"' ∧ c ≠ '\\' ∧ IsPrint tab c = true

/-- Example factories: a payload `0` makes the factory fail with `boom`;
otherwise the handler is the text `kind:name`. -/
def exampleDeps : Deps Nat Nat Nat String :=
  { jwtNewHandler := fun j name =>
      if j = 0 then .error (errorsNew "boom") else .ok ("jwt:" ++ name)
    basicauthNewHandler := fun b name =>
      if b = 0 then .error (errorsNew "boom") else .ok ("basic:" ++ name)
    digestauthNewHandler := fun d name =>
      if d = 0 then .error (errorsNew "boom") else .ok ("digest:" ++ name)
    printTable := fun _ => true }

/-! ## The `select` of `Run` and what is ready at it -/

/-- The situation when `Run` reaches its `select` and one of the cases can
proceed or never will: whether a tick is pending on `t.C`, whether
`ctx.Done()` is closed, the case Go's random choice takes if both are ready,
and what `GetACPs` returns if the tick case runs. -/
structure WaitPoint (J B D : Type) where
  tickReady : Bool
  ctxDone : Bool
  pickTick : Bool
  fetch : Except GoError (ACPs J B D)

/-- The Go `select` statement with the two cases of `Run`: a case that can
proceed is taken, the choice between two such cases is random, and with no
such case the statement blocks (`none`). -/
def selectCase {J B D : Type} (p : WaitPoint J B D) : Option (SelectCase J B D) :=
  match p.tickReady, p.ctxDone with
  | true, true => if p.pickTick then some (.tick p.fetch) else some .done
  | true, false => some (.tick p.fetch)
  | false, true => some .done
  | false, false => none

/-- The `select` outcomes of a sequence of wait points, up to the first one
that blocks. -/
def schedule {J B D : Type} : List (WaitPoint J B D) → List (SelectCase J B D)
  | [] => []
  | p :: rest =>
    match selectCase p with
    | some c => c :: schedule rest
    | none => []

/-- The number of `GetACPs` calls among a list of effects. -/
def fetches {J B D : Type} : List (Event J B D) → Nat
  | [] => 0
  | Event.getACPs :: rest => fetches rest + 1
  | _ :: rest => fetches rest

/-- The set returned by the most recent successful fetch, if any. -/
def lastFetched {α : Type} : List (Except GoError α) → Option α
  | [] => none
  | f :: rest =>
    match lastFetched rest with
    | some b => some b
    | none =>
      match f with
      | .ok b => some b
      | .error _ => none

/-- The callback invocations of one notification round with `n` callbacks on
the set `b`. -/
def round {J B D : Type} (n : Nat) (b : ACPs J B D) : List (Nat × ACPs J B D) :=
  (List.range n).map (fun i => (i, b))

/-! ## `buildRoutes` with its factory calls recorded -/

/-- A call of a handler factory, with its arguments. -/
inductive FactoryCall (J B D : Type) where
  | jwt (cfg : J) (name : String)
  | basicauth (cfg : B) (name : String)
  | digestauth (cfg : D) (name : String)
deriving DecidableEq, Repr

/-- The body of the `range` loop of `buildRoutes` for one entry, as
`buildEntry`, together with the factory calls it makes. -/
def buildEntryTraced {J B D H : Type} (deps : Deps J B D H) (mux : ServeMux H)
    (name : String) (cfg : Config J B D) :
    Outcome (ServeMux H) × List (FactoryCall J B D) :=
  match cfg.JWT, cfg.BasicAuth, cfg.DigestAuth with
  | some j, _, _ =>
    (match deps.jwtNewHandler j name with
      | .error err => .error (wrapCreate deps "JWT" name err)
      | .ok jwtHandler => mux.Handle ("/" ++ name) jwtHandler,
     [FactoryCall.jwt j name])
  | none, some b, _ =>
    (match deps.basicauthNewHandler b name with
      | .error err => .error (wrapCreate deps "basic auth" name err)
      | .ok h => mux.Handle ("/" ++ name) h,
     [FactoryCall.basicauth b name])
  | none, none, some d =>
    (match deps.digestauthNewHandler d name with
      | .error err => .error (wrapCreate deps "digest auth" name err)
      | .ok h => mux.Handle ("/" ++ name) h,
     [FactoryCall.digestauth d name])
  | none, none, none => (.error (errorsNew "unknown ACP handler type"), [])

/-- A loop state with the nil map as snapshot. -/
def stateNil : LoopState (List Nat) Nat Nat Nat :=
  { previousACPs := none, world := [], trace := [] }

/-- A wait point at which the context is cancelled and a tick is pending,
and `select` takes the tick; `GetACPs` then fails. -/
def cancelledWithTick : WaitPoint Nat Nat Nat :=
  { tickReady := true, ctxDone := true, pickTick := true,
    fetch := .error (errorsNew "context canceled") }

/-- A wait point at which the context is cancelled and no tick is pending. -/
def cancelledIdle : WaitPoint Nat Nat Nat :=
  { tickReady := false, ctxDone := true, pickTick := false,
    fetch := .error (errorsNew "context canceled") }

/-- A wait point at which only a tick is pending, with what the fetch gives. -/
def tickOnly (fetch : Except GoError (ACPs Nat Nat Nat)) : WaitPoint Nat Nat Nat :=
  { tickReady := true, ctxDone := false, pickTick := true, fetch := fetch }

/-- The errors the callbacks return in one notification round on `acps`,
in registration order, each callback running in the world its predecessors
left: the batch `errs` of the callback loop. -/
def collectedErrs {σ J B D : Type} (acps : ACPs J B D) :
    List (UpdatedACPFunc σ J B D) → σ → List GoError
  | [], _ => []
  | fn :: rest, world =>
    match (fn acps world).1 with
    | some err => err :: collectedErrs acps rest (fn acps world).2
    | none => collectedErrs acps rest (fn acps world).2

/-! ## Example values -/

/-- A callback that succeeds and records `tag` in a world of tags. -/
def okCallback (tag : Nat) : UpdatedACPFunc (List Nat) Nat Nat Nat :=
  fun _ world => (none, world ++ [tag])

/-- A callback that records `tag` and fails. -/
def failingCallback (tag : Nat) : UpdatedACPFunc (List Nat) Nat Nat Nat :=
  fun _ world => (some (errorsNew "callback failed"), world ++ [tag])

/-- A watcher with three callbacks, the second of which always fails. -/
def exampleWatcher : Watcher Unit (List Nat) Nat Nat Nat :=
  NewWatcher () [okCallback 1, failingCallback 2, okCallback 3]

/-- The set with the single JWT policy `a`. -/
def setA : ACPs Nat Nat Nat := some [("a", ⟨some 1, none, none⟩)]

/-- The set with the JWT policy `a` and the basic-auth policy `b`. -/
def setAB : ACPs Nat Nat Nat :=
  some [("a", ⟨some 1, none, none⟩), ("b", ⟨none, some 2, none⟩)]

/-- The set `setAB`, its entries in the other order. -/
def setBA : ACPs Nat Nat Nat :=
  some [("b", ⟨none, some 2, none⟩), ("a", ⟨some 1, none, none⟩)]

/-- A loop state whose snapshot is `setA`. -/
def stateA : LoopState (List Nat) Nat Nat Nat :=
  { previousACPs := setA, world := [], trace := [] }

end Acp

namespace Acp

/-! ## Lemmas on the callback loop -/

section Watch

variable {C σ J B D : Type}

theorem calls_append (xs ys : List (Event J B D)) :
    calls (xs ++ ys) = calls xs ++ calls ys := by
  induction xs with
  | nil => rfl
  | cons e rest ih => cases e <;> simp [calls, ih]

theorem calls_map_call (acps : ACPs J B D) (ks : List Nat) :
    calls (ks.map (fun k => Event.call k acps)) = ks.map (fun k => (k, acps)) := by
  induction ks with
  | nil => rfl
  | cons k rest ih => simp [calls, ih]

/-- The effects of the callback loop: one `call` per callback, by index. -/
theorem notify_trace (acps : ACPs J B D) (fns : List (UpdatedACPFunc σ J B D)) (i : Nat)
    (st : NotifyState σ J B D) :
    (notify acps fns i st).trace
      = st.trace ++ (List.range' i fns.length).map (fun k => Event.call k acps) := by
  induction fns generalizing i st with
  | nil => simp [notify]
  | cons fn rest ih => simp [notify, ih, List.range'_succ]

/-- The world after the callback loop: every callback applied, in order. -/
theorem notify_world (acps : ACPs J B D) (fns : List (UpdatedACPFunc σ J B D)) (i : Nat)
    (st : NotifyState σ J B D) :
    (notify acps fns i st).world = fns.foldl (fun x fn => (fn acps x).2) st.world := by
  induction fns generalizing i st with
  | nil => simp [notify]
  | cons fn rest ih => simp [notify, ih]

theorem calls_changedEvents (acps : ACPs J B D) (n : Nat) (errs : List GoError) :
    calls (changedEvents acps n errs) = (List.range n).map (fun k => (k, acps)) := by
  unfold changedEvents
  rw [calls_append, calls_append, calls_map_call]
  split <;> simp [calls]

variable [DecidableEq J] [DecidableEq B] [DecidableEq D]

/-- A cycle on a changed set: snapshot, world and effects. -/
theorem tickCase_changed (w : Watcher C σ J B D) (s : LoopState σ J B D) (acps : ACPs J B D)
    (h : deepEqual s.previousACPs acps = false) :
    (tickCase w (.ok acps) s).previousACPs = acps
    ∧ (tickCase w (.ok acps) s).world
        = w.updateACPFuncs.foldl (fun x fn => (fn acps x).2) s.world
    ∧ ∃ errs, (tickCase w (.ok acps) s).trace
        = s.trace ++ changedEvents acps w.updateACPFuncs.length errs := by
  refine ⟨?_, ?_, ?_⟩
  · simp [tickCase, h]
  · simp [tickCase, h, notify_world]
  · refine ⟨(notify acps w.updateACPFuncs 0
      { world := s.world, errs := [],
        trace := s.trace ++ [Event.getACPs,
          Event.logDebug "Executing ACP watcher callbacks"] }).errs, ?_⟩
    simp only [tickCase, h, Bool.not_false, if_true, changedEvents]
    split <;> simp [notify_trace, List.range_eq_range']

/-- A cycle on an unchanged set: only the fetch happens. -/
theorem tickCase_same (w : Watcher C σ J B D) (s : LoopState σ J B D) (acps : ACPs J B D)
    (h : deepEqual s.previousACPs acps = true) :
    tickCase w (.ok acps) s = { s with trace := s.trace ++ [Event.getACPs] } := by
  simp [tickCase, h]

/-- A cycle whose fetch fails: the fetch and one log line. -/
theorem tickCase_error (w : Watcher C σ J B D) (s : LoopState σ J B D) (err : GoError) :
    tickCase w (.error err) s
      = { s with trace := s.trace ++ [Event.getACPs, Event.logError [err] "Unable to read ACP"] } := by
  rfl

end Watch

end Acp

namespace Acp

section DeepEqual

variable {V : Type}

theorem mem_of_lookup_eq_some {l : List (String × V)} {k : String} {v : V}
    (h : l.lookup k = some v) : (k, v) ∈ l := by
  induction l with
  | nil => simp at h
  | cons kv rest ih =>
    obtain ⟨k1, v1⟩ := kv
    rw [List.lookup_cons] at h
    by_cases hk : k = k1
    · subst hk
      simp at h
      simp [h]
    · have : (k == k1) = false := by simpa using hk
      rw [this] at h
      exact List.mem_cons_of_mem _ (ih h)

variable [DecidableEq V]

theorem deepEqual_some_iff (a b : List (String × V)) :
    deepEqual (some a) (some b) = true
      ↔ a.length = b.length ∧ ∀ kv ∈ a, b.lookup kv.1 = some kv.2 := by
  simp [deepEqual]

/-- Go `reflect.DeepEqual` is transitive on maps. -/
theorem deepEqual_trans {a b c : GoMap V} (hab : deepEqual a b = true)
    (hbc : deepEqual b c = true) : deepEqual a c = true := by
  cases a with
  | none =>
    cases b with
    | none => exact hbc
    | some lb => simp [deepEqual] at hab
  | some la =>
    cases b with
    | none => simp [deepEqual] at hab
    | some lb =>
      cases c with
      | none => simp [deepEqual] at hbc
      | some lc =>
        rw [deepEqual_some_iff] at hab hbc ⊢
        refine ⟨hab.1.trans hbc.1, fun kv hkv => ?_⟩
        exact hbc.2 (kv.1, kv.2) (mem_of_lookup_eq_some (hab.2 kv hkv))

end DeepEqual

end Acp

namespace Acp

/-! ## The watcher loop -/

section Loop

variable {C σ J B D : Type} [DecidableEq J] [DecidableEq B] [DecidableEq D]

/-- Ticks whose fetch fails leave snapshot, world and callback invocations as
they are, and the loop goes on with the rest of the schedule. -/
theorem loop_failed_ticks (w : Watcher C σ J B D) (errs : List GoError)
    (rest : List (SelectCase J B D)) (s : LoopState σ J B D) :
    ∃ s1 : LoopState σ J B D,
      loop w (errs.map (fun e => SelectCase.tick (.error e)) ++ rest) s = loop w rest s1
      ∧ s1.previousACPs = s.previousACPs ∧ s1.world = s.world
      ∧ calls s1.trace = calls s.trace := by
  induction errs generalizing s with
  | nil => exact ⟨s, rfl, rfl, rfl, rfl⟩
  | cons e es ih =>
    obtain ⟨s1, h1, h2, h3, h4⟩ := ih (tickCase w (.error e) s)
    refine ⟨s1, ?_, ?_, ?_, ?_⟩
    · simpa [loop] using h1
    · rw [h2, tickCase_error]
    · rw [h3, tickCase_error]
    · rw [h4, tickCase_error]
      simp [calls_append, calls]

end Loop

end Acp

namespace Acp

/-! ## Properties of `Watcher.Run` -/

section RunClaims

variable {C σ J B D : Type} [DecidableEq J] [DecidableEq B] [DecidableEq D]

/-- C1: when the stored snapshot is `a` and the fetch of a tick cycle succeeds
with a set `b` that is not deeply equal to `a`, the cycle invokes every
registered callback exactly once, in registration order, each with `b`: the
callback invocations of the cycle are `(0, b), (1, b), ..., (n-1, b)` and the
world is the one obtained by running the callbacks on `b` one after the
other. -/
theorem run_changed_invokes_each_callback_once_in_order
    (w : Watcher C σ J B D) (s : LoopState σ J B D) (a b : ACPs J B D)
    (hprev : s.previousACPs = a) (hne : deepEqual a b = false) :
    (∃ evs, (tickCase w (.ok b) s).trace = s.trace ++ evs
      ∧ calls evs = (List.range w.updateACPFuncs.length).map (fun i => (i, b)))
    ∧ (tickCase w (.ok b) s).world
        = w.updateACPFuncs.foldl (fun x fn => (fn b x).2) s.world := by
  subst hprev
  obtain ⟨_, hw, errs, ht⟩ := tickCase_changed w s b hne
  exact ⟨⟨_, ht, calls_changedEvents b _ errs⟩, hw⟩

theorem run_changed_invokes_each_callback_once_in_order_witness :
    deepEqual setA setAB = false
    ∧ (∃ evs, (tickCase exampleWatcher (.ok setAB) stateA).trace = stateA.trace ++ evs
        ∧ calls evs = (List.range exampleWatcher.updateACPFuncs.length).map (fun i => (i, setAB)))
    ∧ (tickCase exampleWatcher (.ok setAB) stateA).world
        = exampleWatcher.updateACPFuncs.foldl (fun x fn => (fn setAB x).2) stateA.world :=
  ⟨by decide,
    run_changed_invokes_each_callback_once_in_order exampleWatcher stateA setA setAB rfl
      (by decide)⟩

/-- C2: if a cycle successfully fetched `a` (whatever its callbacks returned),
then the next cycle with a successful fetch, of a set `b` deeply equal to `a`,
invokes no callback and leaves the stored snapshot and the world unchanged;
cycles whose fetch failed may lie in between.  The loop is then waiting for
the next tick. -/
theorem run_equal_fetch_invokes_no_callback
    (w : Watcher C σ J B D) (s : LoopState σ J B D) (a b : ACPs J B D)
    (errs : List GoError) (hab : deepEqual a b = true) :
    (loop w (SelectCase.tick (.ok a)
        :: (errs.map (fun e => SelectCase.tick (.error e)) ++ [SelectCase.tick (.ok b)])) s).1
      = Status.waiting
    ∧ (loop w (SelectCase.tick (.ok a)
        :: (errs.map (fun e => SelectCase.tick (.error e)) ++ [SelectCase.tick (.ok b)])) s).2.previousACPs
      = (tickCase w (.ok a) s).previousACPs
    ∧ (loop w (SelectCase.tick (.ok a)
        :: (errs.map (fun e => SelectCase.tick (.error e)) ++ [SelectCase.tick (.ok b)])) s).2.world
      = (tickCase w (.ok a) s).world
    ∧ calls (loop w (SelectCase.tick (.ok a)
        :: (errs.map (fun e => SelectCase.tick (.error e)) ++ [SelectCase.tick (.ok b)])) s).2.trace
      = calls (tickCase w (.ok a) s).trace := by
  obtain ⟨s1, h1, h2, h3, h4⟩ :=
    loop_failed_ticks w errs [SelectCase.tick (.ok b)] (tickCase w (.ok a) s)
  have hsnap : deepEqual (tickCase w (.ok a) s).previousACPs b = true := by
    cases hsa : deepEqual s.previousACPs a with
    | false => rw [(tickCase_changed w s a hsa).1]; exact hab
    | true =>
      rw [tickCase_same w s a hsa]
      exact deepEqual_trans hsa hab
  have hlast : tickCase w (.ok b) s1 = { s1 with trace := s1.trace ++ [Event.getACPs] } :=
    tickCase_same w s1 b (by rw [h2]; exact hsnap)
  have hloop : loop w (SelectCase.tick (.ok a)
        :: (errs.map (fun e => SelectCase.tick (.error e)) ++ [SelectCase.tick (.ok b)])) s
      = (Status.waiting, { s1 with trace := s1.trace ++ [Event.getACPs] }) := by
    show loop w (errs.map (fun e => SelectCase.tick (.error e)) ++ [SelectCase.tick (.ok b)])
      (tickCase w (.ok a) s) = _
    rw [h1]
    show loop w [] (tickCase w (.ok b) s1) = _
    rw [hlast]
    rfl
  rw [hloop]
  refine ⟨rfl, h2, h3, ?_⟩
  simp [calls_append, calls, h4]

theorem run_equal_fetch_invokes_no_callback_witness :
    deepEqual setAB setBA = true
    ∧ (loop exampleWatcher (SelectCase.tick (.ok setAB)
        :: ([errorsNew "timeout"].map (fun e => SelectCase.tick (.error e))
              ++ [SelectCase.tick (.ok setBA)])) stateA).1
      = Status.waiting
    ∧ (loop exampleWatcher (SelectCase.tick (.ok setAB)
        :: ([errorsNew "timeout"].map (fun e => SelectCase.tick (.error e))
              ++ [SelectCase.tick (.ok setBA)])) stateA).2.previousACPs
      = (tickCase exampleWatcher (.ok setAB) stateA).previousACPs
    ∧ (loop exampleWatcher (SelectCase.tick (.ok setAB)
        :: ([errorsNew "timeout"].map (fun e => SelectCase.tick (.error e))
              ++ [SelectCase.tick (.ok setBA)])) stateA).2.world
      = (tickCase exampleWatcher (.ok setAB) stateA).world
    ∧ calls (loop exampleWatcher (SelectCase.tick (.ok setAB)
        :: ([errorsNew "timeout"].map (fun e => SelectCase.tick (.error e))
              ++ [SelectCase.tick (.ok setBA)])) stateA).2.trace
      = calls (tickCase exampleWatcher (.ok setAB) stateA).trace :=
  ⟨by decide,
    run_equal_fetch_invokes_no_callback exampleWatcher stateA setAB setBA
      [errorsNew "timeout"] (by decide)⟩

end RunClaims

end Acp

namespace Acp

section NotifyErrs

variable {C σ J B D : Type}

/-- The batch `errs` after the callback loop: the errors the callbacks
returned, appended in order. -/
theorem notify_errs (acps : ACPs J B D) (fns : List (UpdatedACPFunc σ J B D)) (i : Nat)
    (st : NotifyState σ J B D) :
    (notify acps fns i st).errs = st.errs ++ collectedErrs acps fns st.world := by
  induction fns generalizing i st with
  | nil => simp [notify, collectedErrs]
  | cons fn rest ih =>
    simp only [notify, collectedErrs, ih]
    cases (fn acps st.world).1 <;> simp

variable [DecidableEq J] [DecidableEq B] [DecidableEq D]

/-- The effects of a cycle on a changed set, with the logged batch of errors. -/
theorem tickCase_changed_trace (w : Watcher C σ J B D) (s : LoopState σ J B D)
    (acps : ACPs J B D) (h : deepEqual s.previousACPs acps = false) :
    (tickCase w (.ok acps) s).trace
      = s.trace ++ changedEvents acps w.updateACPFuncs.length
          (collectedErrs acps w.updateACPFuncs s.world) := by
  simp only [tickCase, h, Bool.not_false, if_true, changedEvents, notify_errs,
    List.nil_append]
  split <;> simp [notify_trace, List.range_eq_range']

end NotifyErrs

end Acp

namespace Acp

section RunErrorClaims

variable {C σ J B D : Type} [DecidableEq J] [DecidableEq B] [DecidableEq D]

/-- C3: in a cycle that fetches a changed set `b`, whatever each callback
returns (any of them may return an error): every callback of the list is
invoked with `b`, those before and those after a failing one.  The world
after the cycle is the one obtained by running all callbacks on `b` one
after the other; the effects of the cycle are the fetch, the debug line, one
invocation per callback in registration order and, when some callback
failed, one log line with the batch of the errors returned; index `i` occurs
among the invocations for every `i` below the number of callbacks, and there
are exactly that many invocations; and after the cycle the stored snapshot
is `b`. -/
theorem run_callback_errors_skip_nothing
    (w : Watcher C σ J B D) (s : LoopState σ J B D) (b : ACPs J B D)
    (hne : deepEqual s.previousACPs b = false) :
    (tickCase w (.ok b) s).previousACPs = b
    ∧ (tickCase w (.ok b) s).world
        = w.updateACPFuncs.foldl (fun x fn => (fn b x).2) s.world
    ∧ (tickCase w (.ok b) s).trace
        = s.trace ++ changedEvents b w.updateACPFuncs.length
            (collectedErrs b w.updateACPFuncs s.world)
    ∧ ∃ evs, (tickCase w (.ok b) s).trace = s.trace ++ evs
        ∧ calls evs = (List.range w.updateACPFuncs.length).map (fun i => (i, b))
        ∧ (∀ i, i < w.updateACPFuncs.length → (i, b) ∈ calls evs)
        ∧ (calls evs).length = w.updateACPFuncs.length := by
  obtain ⟨hp, hw, _, _⟩ := tickCase_changed w s b hne
  have ht := tickCase_changed_trace w s b hne
  refine ⟨hp, hw, ht, _, ht, calls_changedEvents b _ _, ?_, ?_⟩
  · intro i hi
    rw [calls_changedEvents]
    exact List.mem_map.mpr ⟨i, List.mem_range.mpr hi, rfl⟩
  · rw [calls_changedEvents]
    simp

theorem run_callback_errors_skip_nothing_witness :
    deepEqual stateA.previousACPs setAB = false
    ∧ collectedErrs setAB exampleWatcher.updateACPFuncs stateA.world
        = [errorsNew "callback failed"]
    ∧ exampleWatcher.updateACPFuncs.foldl (fun x fn => (fn setAB x).2) stateA.world
        = [1, 2, 3]
    ∧ (tickCase exampleWatcher (.ok setAB) stateA).previousACPs = setAB
    ∧ (tickCase exampleWatcher (.ok setAB) stateA).world
        = exampleWatcher.updateACPFuncs.foldl (fun x fn => (fn setAB x).2) stateA.world
    ∧ (tickCase exampleWatcher (.ok setAB) stateA).trace
        = stateA.trace ++ changedEvents setAB exampleWatcher.updateACPFuncs.length
            (collectedErrs setAB exampleWatcher.updateACPFuncs stateA.world)
    ∧ ∃ evs, (tickCase exampleWatcher (.ok setAB) stateA).trace = stateA.trace ++ evs
        ∧ calls evs
            = (List.range exampleWatcher.updateACPFuncs.length).map (fun i => (i, setAB))
        ∧ (∀ i, i < exampleWatcher.updateACPFuncs.length → (i, setAB) ∈ calls evs)
        ∧ (calls evs).length = exampleWatcher.updateACPFuncs.length :=
  ⟨by decide, by decide, by decide,
    run_callback_errors_skip_nothing exampleWatcher stateA setAB (by decide)⟩

/-- C4: a cycle whose fetch returns an error leaves the stored snapshot and
the world as they were and invokes no callback, and the loop keeps running:
it goes on with the rest of the schedule, and with no further event it is
waiting in the `select`. -/
theorem run_fetch_error_keeps_snapshot
    (w : Watcher C σ J B D) (s : LoopState σ J B D) (err : GoError)
    (rest : List (SelectCase J B D)) :
    (tickCase w (.error err) s).previousACPs = s.previousACPs
    ∧ (tickCase w (.error err) s).world = s.world
    ∧ (∃ evs, (tickCase w (.error err) s).trace = s.trace ++ evs ∧ calls evs = [])
    ∧ loop w (SelectCase.tick (.error err) :: rest) s = loop w rest (tickCase w (.error err) s)
    ∧ loop w [SelectCase.tick (.error err)] s = (Status.waiting, tickCase w (.error err) s) :=
  ⟨rfl, rfl, ⟨_, rfl, rfl⟩, rfl, rfl⟩

/-- C10, as stated, fails: from the initial state, a first successful fetch
that returns the nil map is deeply equal to the initial nil snapshot, so none
of the three callbacks of `exampleWatcher` is invoked. -/
theorem run_first_fetch_nil_map_no_callback :
    exampleWatcher.updateACPFuncs.length = 3
    ∧ calls (Run exampleWatcher [] [SelectCase.tick (.ok none)]).2.trace = []
    ∧ (Run exampleWatcher [] [SelectCase.tick (.ok none)]).2.world = [] := by
  decide

/-- C10, amended: from the initial state, after any number of failed
fetches, a first successful fetch that returns a non-nil map `some l` (the
empty non-nil map included) counts as a change: every registered callback is
invoked exactly once, in registration order, with that map, the map becomes
the stored snapshot, and the loop is waiting for the next tick. -/
theorem run_first_fetch_non_nil_is_change
    (w : Watcher C σ J B D) (world : σ) (errs : List GoError)
    (l : List (String × Config J B D)) :
    (Run w world (errs.map (fun e => SelectCase.tick (.error e))
        ++ [SelectCase.tick (.ok (some l))])).1 = Status.waiting
    ∧ (Run w world (errs.map (fun e => SelectCase.tick (.error e))
        ++ [SelectCase.tick (.ok (some l))])).2.previousACPs = some l
    ∧ calls (Run w world (errs.map (fun e => SelectCase.tick (.error e))
        ++ [SelectCase.tick (.ok (some l))])).2.trace
        = (List.range w.updateACPFuncs.length).map (fun i => (i, some l))
    ∧ (Run w world (errs.map (fun e => SelectCase.tick (.error e))
        ++ [SelectCase.tick (.ok (some l))])).2.world
        = w.updateACPFuncs.foldl (fun x fn => (fn (some l) x).2) world := by
  obtain ⟨s1, h1, h2, h3, h4⟩ :=
    loop_failed_ticks w errs [SelectCase.tick (.ok (some l))] (initState world)
  have hne : deepEqual s1.previousACPs (some l) = false := by
    rw [h2]; rfl
  obtain ⟨hp, hw, es, ht⟩ := tickCase_changed w s1 (some l) hne
  have hrun : Run w world (errs.map (fun e => SelectCase.tick (.error e))
        ++ [SelectCase.tick (.ok (some l))])
      = (Status.waiting, tickCase w (.ok (some l)) s1) := by
    unfold Run
    rw [h1]
    rfl
  rw [hrun]
  refine ⟨rfl, hp, ?_, ?_⟩
  · show calls (tickCase w (.ok (some l)) s1).trace = _
    rw [ht, calls_append, calls_changedEvents, h4]
    simp [initState, calls]
  · show (tickCase w (.ok (some l)) s1).world = _
    rw [hw, h3]
    rfl

end RunErrorClaims

end Acp

namespace Acp

/-! ## Lemmas on `buildRoutes` -/

section Build

variable {J B D H : Type}

theorem slash_append_data (name : String) : ("/" ++ name).data = '/' :: name.data := rfl

theorem slash_append_ne_empty (name : String) : "/" ++ name ≠ "" := by
  intro h
  have := congrArg String.data h
  rw [slash_append_data] at this
  exact List.cons_ne_nil _ _ this

theorem slash_append_injective {a b : String} (h : "/" ++ a = "/" ++ b) : a = b := by
  have := congrArg String.data h
  rw [slash_append_data, slash_append_data] at this
  exact String.ext (List.cons.inj this).2

theorem Handle_ok (mux : ServeMux H) (pattern : String) (handler : H)
    (hne : pattern ≠ "") (hfree : pattern ∉ mux.paths) :
    mux.Handle pattern handler = .ok ⟨mux.m ++ [(pattern, handler)]⟩ := by
  have hl : mux.m.lookup pattern = none := by
    rw [List.lookup_eq_none_iff]
    intro p hp
    have : pattern ≠ p.1 := fun h => hfree (h ▸ List.mem_map_of_mem Prod.fst hp)
    simpa using this
  simp [ServeMux.Handle, hne, hl]

/-- The loop body, by the selected factory call. -/
theorem buildEntry_eq (deps : Deps J B D H) (mux : ServeMux H) (name : String)
    (cfg : Config J B D) :
    buildEntry deps mux name cfg
      = match selectFactory deps name cfg with
        | none => .error (errorsNew "unknown ACP handler type")
        | some (kind, .error err) => .error (wrapCreate deps kind name err)
        | some (_, .ok h) => mux.Handle ("/" ++ name) h := by
  obtain ⟨j, b, d⟩ := cfg
  cases j with
  | some j =>
    simp only [buildEntry, selectFactory]
    cases deps.jwtNewHandler j name <;> rfl
  | none =>
    cases b with
    | some b =>
      simp only [buildEntry, selectFactory]
      cases deps.basicauthNewHandler b name <;> rfl
    | none =>
      cases d with
      | some d =>
        simp only [buildEntry, selectFactory]
        cases deps.digestauthNewHandler d name <;> rfl
      | none => rfl

end Build

end Acp

namespace Acp

section BuildLoop

variable {J B D H : Type}

/-- The paths of the entries still to visit stay free after registering the
path of an entry with a different name. -/
theorem free_after_Handle (mux : ServeMux H) (name : String) (h : H)
    (rest : List (String × Config J B D))
    (hnot : name ∉ rest.map Prod.fst)
    (hfree : ∀ e ∈ rest, "/" ++ e.1 ∉ mux.paths) :
    ∀ e ∈ rest, "/" ++ e.1 ∉ (ServeMux.mk (mux.m ++ [("/" ++ name, h)])).paths := by
  intro e he hmem
  simp only [ServeMux.paths, List.map_append, List.map_cons, List.map_nil, List.mem_append,
    List.mem_singleton] at hmem
  rcases hmem with hm | hm
  · exact hfree e he (by simpa [ServeMux.paths] using hm)
  · exact hnot (slash_append_injective hm ▸ List.mem_map_of_mem Prod.fst he)

/-- When every entry can be built, the loop returns the table extended by one
route per entry, in visiting order. -/
theorem buildLoop_ok (deps : Deps J B D H) (entries : List (String × Config J B D))
    (mux : ServeMux H) (hnd : (entries.map Prod.fst).Nodup)
    (hfree : ∀ e ∈ entries, "/" ++ e.1 ∉ mux.paths)
    (hall : ∀ e ∈ entries, (entryRoute deps e).isSome = true) :
    buildLoop deps entries mux = .ok ⟨mux.m ++ entries.filterMap (entryRoute deps)⟩ := by
  induction entries generalizing mux with
  | nil => simp [buildLoop]
  | cons e rest ih =>
    obtain ⟨name, cfg⟩ := e
    rw [List.map_cons, List.nodup_cons] at hnd
    have he := hall (name, cfg) (List.mem_cons_self _ _)
    have hf := hfree (name, cfg) (List.mem_cons_self _ _)
    simp only [buildLoop, buildEntry_eq]
    simp only [entryRoute] at he
    rcases hsel : selectFactory deps name cfg with _ | ⟨kind, r⟩
    · simp [hsel] at he
    · cases r with
      | error err => simp [hsel] at he
      | ok h =>
        simp only [Handle_ok mux ("/" ++ name) h (slash_append_ne_empty name) hf]
        rw [ih _ hnd.2 (free_after_Handle mux name h rest hnd.1
          (fun e he => hfree e (List.mem_cons_of_mem _ he)))
          (fun e he => hall e (List.mem_cons_of_mem _ he))]
        simp [entryRoute, hsel]

/-- When some entry cannot be built, the loop returns the error of such an
entry, and no table. -/
theorem buildLoop_error (deps : Deps J B D H) (entries : List (String × Config J B D))
    (mux : ServeMux H) (hnd : (entries.map Prod.fst).Nodup)
    (hfree : ∀ e ∈ entries, "/" ++ e.1 ∉ mux.paths)
    (hbad : ∃ e ∈ entries, (entryRoute deps e).isSome = false) :
    ∃ e ∈ entries, ∃ err, entryError deps e = some err
      ∧ buildLoop deps entries mux = .error err := by
  induction entries generalizing mux with
  | nil => simp at hbad
  | cons e rest ih =>
    obtain ⟨name, cfg⟩ := e
    rw [List.map_cons, List.nodup_cons] at hnd
    have hf := hfree (name, cfg) (List.mem_cons_self _ _)
    rcases hsel : selectFactory deps name cfg with _ | ⟨kind, r⟩
    · refine ⟨(name, cfg), List.mem_cons_self _ _, errorsNew "unknown ACP handler type", ?_, ?_⟩
      · simp [entryError, hsel]
      · simp [buildLoop, buildEntry_eq, hsel]
    · cases r with
      | error err =>
        refine ⟨(name, cfg), List.mem_cons_self _ _, wrapCreate deps kind name err, ?_, ?_⟩
        · simp [entryError, hsel]
        · simp [buildLoop, buildEntry_eq, hsel]
      | ok h =>
        have hbad2 : ∃ e ∈ rest, (entryRoute deps e).isSome = false := by
          obtain ⟨e, he, hb⟩ := hbad
          rcases List.mem_cons.mp he with rfl | he2
          · simp [entryRoute, hsel] at hb
          · exact ⟨e, he2, hb⟩
        obtain ⟨e, he, err, h1, h2⟩ := ih _ hnd.2 (free_after_Handle mux name h rest hnd.1
          (fun e he => hfree e (List.mem_cons_of_mem _ he))) hbad2
        refine ⟨e, List.mem_cons_of_mem _ he, err, h1, ?_⟩
        simp only [buildLoop, buildEntry_eq, hsel,
          Handle_ok mux ("/" ++ name) h (slash_append_ne_empty name) hf]
        exact h2

end BuildLoop

end Acp

namespace Acp

section Select

variable {J B D H : Type}

theorem populated_eq_zero_iff (cfg : Config J B D) :
    cfg.populated = 0 ↔ cfg.JWT = none ∧ cfg.BasicAuth = none ∧ cfg.DigestAuth = none := by
  obtain ⟨j, b, d⟩ := cfg
  cases j <;> cases b <;> cases d <;> simp [Config.populated]

theorem selectFactory_eq_none_iff (deps : Deps J B D H) (name : String) (cfg : Config J B D) :
    selectFactory deps name cfg = none ↔ cfg.populated = 0 := by
  obtain ⟨j, b, d⟩ := cfg
  cases j <;> cases b <;> cases d <;> simp [Config.populated, selectFactory]

theorem selectFactory_of_JWT (deps : Deps J B D H) (name : String) (cfg : Config J B D) (j : J)
    (h : cfg.JWT = some j) :
    selectFactory deps name cfg = some ("JWT", deps.jwtNewHandler j name) := by
  obtain ⟨j1, b, d⟩ := cfg
  cases h
  rfl

theorem selectFactory_of_BasicAuth (deps : Deps J B D H) (name : String) (cfg : Config J B D)
    (b : B) (hj : cfg.JWT = none) (h : cfg.BasicAuth = some b) :
    selectFactory deps name cfg = some ("basic auth", deps.basicauthNewHandler b name) := by
  obtain ⟨j1, b1, d⟩ := cfg
  cases h
  cases hj
  rfl

theorem selectFactory_of_DigestAuth (deps : Deps J B D H) (name : String) (cfg : Config J B D)
    (d : D) (hj : cfg.JWT = none) (hb : cfg.BasicAuth = none) (h : cfg.DigestAuth = some d) :
    selectFactory deps name cfg = some ("digest auth", deps.digestauthNewHandler d name) := by
  obtain ⟨j1, b1, d1⟩ := cfg
  cases h
  cases hj
  cases hb
  rfl

/-- With exactly one populated variant, a populated `BasicAuth` or
`DigestAuth` leaves the variants before it empty. -/
theorem populated_one_cases (cfg : Config J B D) (h : cfg.populated = 1) :
    (cfg.BasicAuth.isSome = true → cfg.JWT = none)
    ∧ (cfg.DigestAuth.isSome = true → cfg.JWT = none ∧ cfg.BasicAuth = none) := by
  obtain ⟨j, b, d⟩ := cfg
  cases j <;> cases b <;> cases d <;> simp [Config.populated] at h ⊢

/-- An entry with a populated variant whose factories succeed yields a route. -/
theorem entryRoute_isSome_of_succeed (deps : Deps J B D H) (e : String × Config J B D)
    (hpop : e.2.populated ≠ 0) (hok : FactoriesSucceed deps e) :
    (entryRoute deps e).isSome = true := by
  obtain ⟨name, ⟨j, b, d⟩⟩ := e
  obtain ⟨h1, h2, h3⟩ := hok
  cases j with
  | some j =>
    obtain ⟨h, hh⟩ := h1 j rfl
    simp only [entryRoute, selectFactory]
    simp at hh
    simp [hh]
  | none =>
    cases b with
    | some b =>
      obtain ⟨h, hh⟩ := h2 b rfl
      simp only [entryRoute, selectFactory]
      simp at hh
      simp [hh]
    | none =>
      cases d with
      | some d =>
        obtain ⟨h, hh⟩ := h3 d rfl
        simp only [entryRoute, selectFactory]
        simp at hh
        simp [hh]
      | none => simp [Config.populated] at hpop

theorem entryRoute_eq_some_of_select (deps : Deps J B D H) (e : String × Config J B D)
    (kind : String) (h : H) (hsel : selectFactory deps e.1 e.2 = some (kind, .ok h)) :
    entryRoute deps e = some ("/" ++ e.1, h) := by
  simp [entryRoute, hsel]

theorem entryRoute_isSome_iff (deps : Deps J B D H) (e : String × Config J B D) :
    (entryRoute deps e).isSome = true
      ↔ ∃ kind h, selectFactory deps e.1 e.2 = some (kind, .ok h) := by
  unfold entryRoute
  rcases hsel : selectFactory deps e.1 e.2 with _ | ⟨kind, r⟩
  · simp
  · cases r <;> simp

/-- The paths of the routes of buildable entries. -/
theorem routes_paths (deps : Deps J B D H) (l : List (String × Config J B D))
    (hall : ∀ e ∈ l, (entryRoute deps e).isSome = true) :
    (l.filterMap (entryRoute deps)).map Prod.fst = l.map (fun e => "/" ++ e.1) := by
  induction l with
  | nil => rfl
  | cons e rest ih =>
    obtain ⟨kind, h, hsel⟩ := (entryRoute_isSome_iff deps e).mp (hall e (List.mem_cons_self _ _))
    rw [List.filterMap_cons, entryRoute_eq_some_of_select deps e kind h hsel]
    simp [ih (fun e he => hall e (List.mem_cons_of_mem _ he))]

/-- The handler found at the path of an entry is the one of its route. -/
theorem routes_lookup (deps : Deps J B D H) (l : List (String × Config J B D))
    (hnd : (l.map Prod.fst).Nodup) (e : String × Config J B D) (he : e ∈ l) (h : H)
    (hr : entryRoute deps e = some ("/" ++ e.1, h)) :
    (l.filterMap (entryRoute deps)).lookup ("/" ++ e.1) = some h := by
  induction l with
  | nil => simp at he
  | cons e0 rest ih =>
    rw [List.map_cons, List.nodup_cons] at hnd
    rcases List.mem_cons.mp he with rfl | he2
    · rw [List.filterMap_cons, hr]
      simp
    · have hne : e.1 ≠ e0.1 := fun heq => hnd.1 (heq ▸ List.mem_map_of_mem Prod.fst he2)
      rw [List.filterMap_cons]
      rcases h0 : entryRoute deps e0 with _ | ⟨p, h1⟩
      · exact ih hnd.2 he2
      · have hp : p = "/" ++ e0.1 := by
          unfold entryRoute at h0
          rcases hsel : selectFactory deps e0.1 e0.2 with _ | ⟨kind, r⟩
          · simp [hsel] at h0
          · cases r with
            | error err => simp [hsel] at h0
            | ok h2 =>
              simp [hsel] at h0
              exact h0.1.symm
        subst hp
        have hk : ("/" ++ e.1 == "/" ++ e0.1) = false := by
          simpa using fun heq => hne (slash_append_injective heq)
        simp only [List.lookup_cons, hk]
        exact ih hnd.2 he2

end Select

end Acp

namespace Acp

/-! ## Properties of `buildRoutes` -/

section BuildClaims

variable {J B D H : Type}

theorem NewServeMux_paths_free (entries : List (String × Config J B D)) :
    ∀ e ∈ entries, "/" ++ e.1 ∉ (NewServeMux : ServeMux H).paths := by
  intro e _ h
  simp [NewServeMux, ServeMux.paths] at h

/-- The whole build, when every entry of a well-formed map can be built. -/
theorem buildRoutes_ok (deps : Deps J B D H) (cfgs : ACPs J B D) (hwf : cfgs.WF)
    (hall : ∀ e ∈ cfgs.entries, (entryRoute deps e).isSome = true) :
    buildRoutes deps cfgs = .ok ⟨cfgs.entries.filterMap (entryRoute deps)⟩ := by
  unfold buildRoutes
  rw [buildLoop_ok deps cfgs.entries NewServeMux hwf (NewServeMux_paths_free _) hall]
  rfl

/-- C5: for every policy set (with distinct names) that contains at least one
config with none of JWT, BasicAuth, DigestAuth populated, and whose other
entries all have exactly one populated variant and succeeding factories,
`buildRoutes` returns the error `unknown ACP handler type` and no table, in
whatever order `order` the entries are visited. -/
theorem buildRoutes_no_variant_unknown_type
    (deps : Deps J B D H) (cfgs : ACPs J B D) (order : List (String × Config J B D))
    (hwf : cfgs.WF) (hperm : order.Perm cfgs.entries)
    (hnone : ∃ e ∈ cfgs.entries, e.2.populated = 0)
    (hothers : ∀ e ∈ cfgs.entries, e.2.populated ≠ 0 →
      e.2.populated = 1 ∧ FactoriesSucceed deps e) :
    buildRoutes deps (some order) = .error (errorsNew "unknown ACP handler type") := by
  have hnd : (order.map Prod.fst).Nodup := ((hperm.map Prod.fst).nodup_iff).mpr hwf
  have hbad : ∃ e ∈ order, (entryRoute deps e).isSome = false := by
    obtain ⟨e, he, h0⟩ := hnone
    refine ⟨e, hperm.mem_iff.mpr he, ?_⟩
    simp [entryRoute, (selectFactory_eq_none_iff deps e.1 e.2).mpr h0]
  obtain ⟨e, he, err, herr, hres⟩ :=
    buildLoop_error deps order NewServeMux hnd (NewServeMux_paths_free _) hbad
  have hres2 : buildRoutes deps (some order) = .error err := hres
  rw [hres2]
  by_cases h0 : e.2.populated = 0
  · simp [entryError, (selectFactory_eq_none_iff deps e.1 e.2).mpr h0] at herr
    rw [herr]
  · have hs := entryRoute_isSome_of_succeed deps e h0
      (hothers e (hperm.mem_iff.mp he) h0).2
    obtain ⟨kind, h, hsel⟩ := (entryRoute_isSome_iff deps e).mp hs
    simp [entryError, hsel] at herr

theorem buildRoutes_no_variant_unknown_type_witness :
    GoMap.WF (some [("a", (⟨some 1, none, none⟩ : Config Nat Nat Nat)), ("b", ⟨none, none, none⟩)])
    ∧ buildRoutes exampleDeps (some [("b", ⟨none, none, none⟩), ("a", ⟨some 1, none, none⟩)])
        = .error (errorsNew "unknown ACP handler type") :=
  ⟨by decide,
    buildRoutes_no_variant_unknown_type exampleDeps
      (some [("a", ⟨some 1, none, none⟩), ("b", ⟨none, none, none⟩)])
      [("b", ⟨none, none, none⟩), ("a", ⟨some 1, none, none⟩)]
      (by decide) (List.Perm.swap _ _ _)
      ⟨("b", ⟨none, none, none⟩), by simp [GoMap.entries], by decide⟩
      (by
        intro e he h0
        simp only [GoMap.entries, List.mem_cons, List.mem_singleton, List.mem_nil_iff,
          or_false] at he
        rcases he with rfl | rfl
        · refine ⟨by decide, ?_, ?_, ?_⟩
          · intro j hj
            cases hj
            exact ⟨"jwt:a", rfl⟩
          · intro b hb
            cases hb
          · intro d hd
            cases hd
        · exact absurd (by decide) h0)⟩

/-- C6, as stated, fails: the set with the single policy `a` whose config has
both JWT and BasicAuth populated is not rejected; `buildRoutes` returns a
table, with the JWT handler at `/a`. -/
theorem buildRoutes_accepts_multi_variant :
    Config.populated (⟨some 1, some 2, none⟩ : Config Nat Nat Nat) = 2
    ∧ buildRoutes exampleDeps (some [("a", ⟨some 1, some 2, none⟩)])
        = .ok ⟨[("/a", "jwt:a")]⟩ := by
  decide

/-- C6, amended: for every policy set with distinct names, also one that
holds configs with more than one populated variant: `buildRoutes` returns the
error `unknown ACP handler type` only if some config of the set has no
populated variant at all; and when the factory selected for each entry (that
of its first populated variant in the order JWT, BasicAuth, DigestAuth)
succeeds, `buildRoutes` returns a table with exactly the paths `"/" + name`,
where an entry with JWT populated gets the JWT handler whatever its other
variants hold. -/
theorem buildRoutes_multi_variant_by_precedence
    (deps : Deps J B D H) (cfgs : ACPs J B D) (hwf : cfgs.WF) :
    (buildRoutes deps cfgs = .error (errorsNew "unknown ACP handler type")
      → ∃ e ∈ cfgs.entries, e.2.populated = 0)
    ∧ ((∀ e ∈ cfgs.entries, (entryRoute deps e).isSome = true) →
        ∃ mux, buildRoutes deps cfgs = .ok mux
          ∧ mux.paths = cfgs.entries.map (fun e => "/" ++ e.1)
          ∧ ∀ e ∈ cfgs.entries, ∀ j, e.2.JWT = some j →
              ∃ h, deps.jwtNewHandler j e.1 = .ok h ∧ mux.handler ("/" ++ e.1) = some h) := by
  constructor
  · intro hres
    by_cases hall : ∀ e ∈ cfgs.entries, (entryRoute deps e).isSome = true
    · rw [buildRoutes_ok deps cfgs hwf hall] at hres
      cases hres
    · have hbad : ∃ e ∈ cfgs.entries, (entryRoute deps e).isSome = false := by
        by_contra hcon
        apply hall
        intro e he
        by_contra hne
        exact hcon ⟨e, he, by simpa using hne⟩
      obtain ⟨e, he, err, herr, hres2⟩ :=
        buildLoop_error deps cfgs.entries NewServeMux hwf (NewServeMux_paths_free _) hbad
      have hres3 : buildRoutes deps cfgs = .error err := hres2
      rw [hres3] at hres
      cases hres
      refine ⟨e, he, ?_⟩
      rcases hsel : selectFactory deps e.1 e.2 with _ | ⟨kind, r⟩
      · exact (selectFactory_eq_none_iff deps e.1 e.2).mp hsel
      · cases r <;> simp [entryError, hsel, wrapCreate, errorsNew] at herr
  · intro hall
    refine ⟨_, buildRoutes_ok deps cfgs hwf hall, routes_paths deps _ hall, ?_⟩
    intro e he j hj
    obtain ⟨kind, h, hsel⟩ := (entryRoute_isSome_iff deps e).mp (hall e he)
    rw [selectFactory_of_JWT deps e.1 e.2 j hj] at hsel
    simp only [Option.some.injEq, Prod.mk.injEq] at hsel
    exact ⟨h, hsel.2, routes_lookup deps _ hwf e he h
      (entryRoute_eq_some_of_select deps e "JWT" h
        (by rw [selectFactory_of_JWT deps e.1 e.2 j hj, hsel.2]))⟩

theorem buildRoutes_multi_variant_by_precedence_witness :
    GoMap.WF (some [("a", (⟨some 1, some 2, none⟩ : Config Nat Nat Nat))])
    ∧ (∀ e ∈ GoMap.entries (some [("a", (⟨some 1, some 2, none⟩ : Config Nat Nat Nat))]),
          (entryRoute exampleDeps e).isSome = true)
    ∧ ∃ mux, buildRoutes exampleDeps (some [("a", ⟨some 1, some 2, none⟩)]) = .ok mux
        ∧ mux.paths = (GoMap.entries (some [("a", (⟨some 1, some 2, none⟩ : Config Nat Nat Nat))])).map
            (fun e => "/" ++ e.1)
        ∧ ∀ e ∈ GoMap.entries (some [("a", (⟨some 1, some 2, none⟩ : Config Nat Nat Nat))]),
            ∀ j, e.2.JWT = some j →
              ∃ h, exampleDeps.jwtNewHandler j e.1 = .ok h
                ∧ mux.handler ("/" ++ e.1) = some h :=
  ⟨by decide, by decide,
    (buildRoutes_multi_variant_by_precedence exampleDeps
      (some [("a", ⟨some 1, some 2, none⟩)]) (by decide)).2 (by decide)⟩

end BuildClaims

end Acp

namespace Acp

section TableClaims

variable {J B D H : Type}

/-- C7: for every policy set (with distinct names) in which each config has
exactly one populated variant and every handler factory call succeeds,
`buildRoutes` succeeds; the paths registered in the returned table are
exactly the `"/" + name` for the names of the set, each once; and the handler
at `"/" + name` is the one returned by the factory of that config's populated
variant (JWT, basic auth or digest auth) called with that variant's config
and `name`. -/
theorem buildRoutes_registers_slash_name
    (deps : Deps J B D H) (cfgs : ACPs J B D) (hwf : cfgs.WF)
    (hone : ∀ e ∈ cfgs.entries, e.2.populated = 1)
    (hok : ∀ e ∈ cfgs.entries, FactoriesSucceed deps e) :
    ∃ mux, buildRoutes deps cfgs = .ok mux
      ∧ mux.paths = cfgs.entries.map (fun e => "/" ++ e.1)
      ∧ (∀ p, p ∈ mux.paths ↔ ∃ e ∈ cfgs.entries, p = "/" ++ e.1)
      ∧ ∀ e ∈ cfgs.entries,
          (∀ j, e.2.JWT = some j →
            ∃ h, deps.jwtNewHandler j e.1 = .ok h ∧ mux.handler ("/" ++ e.1) = some h)
          ∧ (∀ b, e.2.BasicAuth = some b →
            ∃ h, deps.basicauthNewHandler b e.1 = .ok h ∧ mux.handler ("/" ++ e.1) = some h)
          ∧ (∀ d, e.2.DigestAuth = some d →
            ∃ h, deps.digestauthNewHandler d e.1 = .ok h
              ∧ mux.handler ("/" ++ e.1) = some h) := by
  have hall : ∀ e ∈ cfgs.entries, (entryRoute deps e).isSome = true := fun e he =>
    entryRoute_isSome_of_succeed deps e (by rw [hone e he]; decide) (hok e he)
  have hpaths := routes_paths deps cfgs.entries hall
  have hfound : ∀ e ∈ cfgs.entries, ∀ kind r, selectFactory deps e.1 e.2 = some (kind, r) →
      ∃ h, r = .ok h
        ∧ (ServeMux.mk (cfgs.entries.filterMap (entryRoute deps))).handler ("/" ++ e.1)
            = some h := by
    intro e he kind r hsel
    obtain ⟨kind1, h, hsel1⟩ := (entryRoute_isSome_iff deps e).mp (hall e he)
    rw [hsel] at hsel1
    simp only [Option.some.injEq, Prod.mk.injEq] at hsel1
    refine ⟨h, hsel1.2, routes_lookup deps _ hwf e he h
      (entryRoute_eq_some_of_select deps e kind h (by rw [hsel, hsel1.2]))⟩
  refine ⟨_, buildRoutes_ok deps cfgs hwf hall, hpaths, ?_, ?_⟩
  · intro p
    show p ∈ (cfgs.entries.filterMap (entryRoute deps)).map Prod.fst ↔ _
    rw [hpaths, List.mem_map]
    constructor
    · rintro ⟨e, he, rfl⟩
      exact ⟨e, he, rfl⟩
    · rintro ⟨e, he, rfl⟩
      exact ⟨e, he, rfl⟩
  · intro e he
    obtain ⟨hb1, hd1⟩ := populated_one_cases e.2 (hone e he)
    refine ⟨?_, ?_, ?_⟩
    · intro j hj
      exact hfound e he _ _ (selectFactory_of_JWT deps e.1 e.2 j hj)
    · intro b hb
      exact hfound e he _ _
        (selectFactory_of_BasicAuth deps e.1 e.2 b (hb1 (by simp [hb])) hb)
    · intro d hd
      obtain ⟨h1, h2⟩ := hd1 (by simp [hd])
      exact hfound e he _ _ (selectFactory_of_DigestAuth deps e.1 e.2 d h1 h2 hd)

theorem exampleDeps_succeed_on_setAB : ∀ e ∈ GoMap.entries setAB, FactoriesSucceed exampleDeps e := by
  intro e he
  simp only [setAB, GoMap.entries, List.mem_cons, List.mem_singleton, List.mem_nil_iff,
    or_false] at he
  rcases he with rfl | rfl
  · refine ⟨?_, ?_, ?_⟩
    · intro j hj
      cases hj
      exact ⟨"jwt:a", rfl⟩
    · intro b hb
      cases hb
    · intro d hd
      cases hd
  · refine ⟨?_, ?_, ?_⟩
    · intro j hj
      cases hj
    · intro b hb
      cases hb
      exact ⟨"basic:b", rfl⟩
    · intro d hd
      cases hd

theorem buildRoutes_registers_slash_name_witness :
    GoMap.WF setAB
    ∧ (∀ e ∈ GoMap.entries setAB, e.2.populated = 1)
    ∧ buildRoutes exampleDeps setAB = .ok ⟨[("/a", "jwt:a"), ("/b", "basic:b")]⟩
    ∧ ∃ mux, buildRoutes exampleDeps setAB = .ok mux
      ∧ mux.paths = (GoMap.entries setAB).map (fun e => "/" ++ e.1)
      ∧ (∀ p, p ∈ mux.paths ↔ ∃ e ∈ GoMap.entries setAB, p = "/" ++ e.1)
      ∧ ∀ e ∈ GoMap.entries setAB,
          (∀ j, e.2.JWT = some j →
            ∃ h, exampleDeps.jwtNewHandler j e.1 = .ok h
              ∧ mux.handler ("/" ++ e.1) = some h)
          ∧ (∀ b, e.2.BasicAuth = some b →
            ∃ h, exampleDeps.basicauthNewHandler b e.1 = .ok h
              ∧ mux.handler ("/" ++ e.1) = some h)
          ∧ (∀ d, e.2.DigestAuth = some d →
            ∃ h, exampleDeps.digestauthNewHandler d e.1 = .ok h
              ∧ mux.handler ("/" ++ e.1) = some h) :=
  ⟨by decide, by decide, by decide,
    buildRoutes_registers_slash_name exampleDeps setAB (by decide) (by decide)
      exampleDeps_succeed_on_setAB⟩

end TableClaims

end Acp

namespace Acp

section ErrorClaims

variable {J B D H : Type}

theorem Contains_trans {s t u : String} (h1 : Contains t u) (h2 : Contains s t) :
    Contains s u :=
  List.IsInfix.trans h1 h2

/-- The message of a wrapped factory error holds the quoted name. -/
theorem wrapCreate_contains_quoted (deps : Deps J B D H) (kind name : String) (err : GoError) :
    Contains (wrapCreate deps kind name err).Error (strconvQuote deps.printTable name) := by
  refine ⟨"create ".data, (" " ++ kind ++ " ACP handler: " ++ err.Error).data, ?_⟩
  simp [wrapCreate, GoError.Error, String.data_append, List.append_assoc]

/-- The message of a wrapped factory error ends with the message of its cause. -/
theorem wrapCreate_contains_cause (deps : Deps J B D H) (kind name : String) (err : GoError) :
    Contains (wrapCreate deps kind name err).Error err.Error := by
  refine ⟨("create " ++ strconvQuote deps.printTable name ++ " " ++ kind
    ++ " ACP handler: ").data, [], ?_⟩
  simp [wrapCreate, GoError.Error, String.data_append, List.append_assoc]

theorem flatMap_escape_plain (tab : Char → Bool) (l : List Char)
    (h : ∀ c ∈ l, c ≠ '"' ∧ c ≠ '\\' ∧ IsPrint tab c = true) :
    l.flatMap (appendEscapedRune tab) = l := by
  induction l with
  | nil => rfl
  | cons c rest ih =>
    obtain ⟨h1, h2, h3⟩ := h c (List.mem_cons_self _ _)
    rw [List.flatMap_cons, ih (fun c hc => h c (List.mem_cons_of_mem _ hc))]
    simp [appendEscapedRune, h1, h2, h3]

/-- A plain name stands unchanged between the quotes of its `%q` rendering. -/
theorem strconvQuote_contains_plain (tab : Char → Bool) (name : String)
    (h : PlainName tab name) : Contains (strconvQuote tab name) name := by
  refine ⟨['"'], ['"'], ?_⟩
  simp [strconvQuote, flatMap_escape_plain tab name.data h]

/-- C8, as stated, fails: for the policy named `a"b` whose JWT factory fails
with `boom`, `buildRoutes` returns an error (and no table) that wraps the
cause, but its message `create "a\"b" JWT ACP handler: boom` holds the name
only in its quoted form, not the name itself. -/
theorem buildRoutes_factory_error_quotes_name :
    buildRoutes exampleDeps (some [("a\"b", ⟨some 0, none, none⟩)])
      = .error (.wrapError "create \"a\\\"b\" JWT ACP handler: boom" (errorsNew "boom"))
    ∧ ¬ Contains "create \"a\\\"b\" JWT ACP handler: boom" "a\"b" := by
  decide

/-- C8, amended: for every policy set (with distinct names) in which the
factory selected for some entry returns an error, `buildRoutes` returns an
error and no table, so never a table of the entries built before the failure.
That error is either `unknown ACP handler type` or comes from an entry whose
selected factory failed: it then wraps the factory's cause, and its message
contains the cause's message and the name of that policy as rendered by
`%q`; it contains the name itself when the name is made of printable
characters other than the double quote and the backslash. -/
theorem buildRoutes_factory_error_no_table
    (deps : Deps J B D H) (cfgs : ACPs J B D) (hwf : cfgs.WF)
    (hfail : ∃ e ∈ cfgs.entries, ∃ kind cause,
      selectFactory deps e.1 e.2 = some (kind, .error cause)) :
    ∃ err, buildRoutes deps cfgs = .error err
      ∧ (∀ mux, buildRoutes deps cfgs ≠ .ok mux)
      ∧ (err = errorsNew "unknown ACP handler type"
        ∨ ∃ e ∈ cfgs.entries, ∃ kind cause,
            selectFactory deps e.1 e.2 = some (kind, .error cause)
            ∧ err.Unwrap = some cause
            ∧ Contains err.Error cause.Error
            ∧ Contains err.Error (strconvQuote deps.printTable e.1)
            ∧ (PlainName deps.printTable e.1 → Contains err.Error e.1)) := by
  have hbad : ∃ e ∈ cfgs.entries, (entryRoute deps e).isSome = false := by
    obtain ⟨e, he, kind, cause, hsel⟩ := hfail
    exact ⟨e, he, by simp [entryRoute, hsel]⟩
  obtain ⟨e, he, err, herr, hres⟩ :=
    buildLoop_error deps cfgs.entries NewServeMux hwf (NewServeMux_paths_free _) hbad
  have hres2 : buildRoutes deps cfgs = .error err := hres
  refine ⟨err, hres2, ?_, ?_⟩
  · intro mux hmux
    rw [hres2] at hmux
    cases hmux
  · rcases hsel : selectFactory deps e.1 e.2 with _ | ⟨kind, r⟩
    · left
      simp [entryError, hsel] at herr
      exact herr.symm
    · cases r with
      | ok h => simp [entryError, hsel] at herr
      | error cause =>
        right
        simp only [entryError, hsel, Option.some.injEq] at herr
        subst herr
        exact ⟨e, he, kind, cause, hsel, rfl, wrapCreate_contains_cause deps kind e.1 cause,
          wrapCreate_contains_quoted deps kind e.1 cause,
          fun hp => Contains_trans (strconvQuote_contains_plain _ _ hp)
            (wrapCreate_contains_quoted deps kind e.1 cause)⟩

theorem buildRoutes_factory_error_no_table_witness :
    GoMap.WF (some [("a", (⟨some 1, none, none⟩ : Config Nat Nat Nat)), ("b", ⟨none, some 0, none⟩)])
    ∧ buildRoutes exampleDeps (some [("a", ⟨some 1, none, none⟩), ("b", ⟨none, some 0, none⟩)])
        = .error (.wrapError "create \"b\" basic auth ACP handler: boom" (errorsNew "boom"))
    ∧ ∃ err, buildRoutes exampleDeps
          (some [("a", ⟨some 1, none, none⟩), ("b", ⟨none, some 0, none⟩)]) = .error err
      ∧ (∀ mux, buildRoutes exampleDeps
          (some [("a", ⟨some 1, none, none⟩), ("b", ⟨none, some 0, none⟩)]) ≠ .ok mux)
      ∧ (err = errorsNew "unknown ACP handler type"
        ∨ ∃ e ∈ GoMap.entries
              (some [("a", (⟨some 1, none, none⟩ : Config Nat Nat Nat)), ("b", ⟨none, some 0, none⟩)]),
            ∃ kind cause,
            selectFactory exampleDeps e.1 e.2 = some (kind, .error cause)
            ∧ err.Unwrap = some cause
            ∧ Contains err.Error cause.Error
            ∧ Contains err.Error (strconvQuote exampleDeps.printTable e.1)
            ∧ (PlainName exampleDeps.printTable e.1 → Contains err.Error e.1)) :=
  ⟨by decide, by decide,
    buildRoutes_factory_error_no_table exampleDeps
      (some [("a", ⟨some 1, none, none⟩), ("b", ⟨none, some 0, none⟩)]) (by decide)
      ⟨("b", ⟨none, some 0, none⟩), by simp [GoMap.entries], "basic auth", errorsNew "boom",
        rfl⟩⟩

/-- C9: the code does not do what the claim says.  For the set whose only
policy `b` has no populated variant, `buildRoutes` returns the fixed error
`unknown ACP handler type`, whose message does not contain the name `b`. -/
theorem buildRoutes_unknown_type_error_omits_name :
    buildRoutes exampleDeps (some [("b", ⟨none, none, none⟩)])
      = .error (errorsNew "unknown ACP handler type")
    ∧ ¬ Contains (errorsNew "unknown ACP handler type").Error "b" := by
  decide

end ErrorClaims

end Acp

namespace Acp

/-! ## Empty sets, termination and cancellation -/

section Termination

variable {C σ J B D : Type} [DecidableEq J] [DecidableEq B] [DecidableEq D]

/-- C11, as stated, fails: a nil snapshot and a fetched empty non-nil map both
hold no policies, yet `reflect.DeepEqual` tells them apart, so the cycle
invokes all three callbacks of `exampleWatcher` and replaces the snapshot;
likewise for an empty non-nil snapshot and a fetched nil map. -/
theorem run_nil_and_empty_map_differ :
    calls (tickCase exampleWatcher (.ok (some [])) stateNil).trace
        = [(0, some []), (1, some []), (2, some [])]
    ∧ (tickCase exampleWatcher (.ok (some [])) stateNil).previousACPs = some []
    ∧ calls (tickCase exampleWatcher (.ok none)
          { previousACPs := some [], world := [], trace := [] }).trace
        = [(0, none), (1, none), (2, none)] :=
  ⟨rfl, rfl, rfl⟩

/-- C11, amended: when the stored snapshot and the newly fetched set hold no
policies in the same representation (both the nil map, or both an empty
non-nil map), the two compare as equal: the cycle invokes no callback and
leaves snapshot and world unchanged. -/
theorem run_no_policies_same_representation
    (w : Watcher C σ J B D) (s : LoopState σ J B D) (b : ACPs J B D)
    (hb : b = none ∨ b = some []) (hs : s.previousACPs = b) :
    deepEqual s.previousACPs b = true
    ∧ (tickCase w (.ok b) s).previousACPs = s.previousACPs
    ∧ (tickCase w (.ok b) s).world = s.world
    ∧ ∃ evs, (tickCase w (.ok b) s).trace = s.trace ++ evs ∧ calls evs = [] := by
  have heq : deepEqual s.previousACPs b = true := by
    rw [hs]
    rcases hb with rfl | rfl <;> rfl
  rw [tickCase_same w s b heq]
  exact ⟨heq, rfl, rfl, _, rfl, rfl⟩

theorem run_no_policies_same_representation_witness :
    ((some [] : ACPs Nat Nat Nat) = none ∨ (some [] : ACPs Nat Nat Nat) = some [])
    ∧ deepEqual (some [] : ACPs Nat Nat Nat) (some []) = true
    ∧ (tickCase exampleWatcher (.ok (some []))
        { previousACPs := some [], world := [], trace := [] }).previousACPs = some []
    ∧ (tickCase exampleWatcher (.ok (some []))
        { previousACPs := some [], world := [], trace := [] }).world = []
    ∧ ∃ evs, (tickCase exampleWatcher (.ok (some []))
          { previousACPs := some [], world := [], trace := [] }).trace = [] ++ evs
        ∧ calls evs = [] :=
  ⟨Or.inr rfl,
    run_no_policies_same_representation exampleWatcher
      { previousACPs := some [], world := [], trace := [] } (some []) (Or.inr rfl) rfl⟩

/-- The loop has returned exactly when some `select` took the `ctx.Done()`
case. -/
theorem loop_returned_iff (w : Watcher C σ J B D) (sched : List (SelectCase J B D))
    (s : LoopState σ J B D) :
    (loop w sched s).1 = Status.returned ↔ SelectCase.done ∈ sched := by
  induction sched generalizing s with
  | nil => simp [loop]
  | cons c rest ih =>
    cases c with
    | done => simp [loop]
    | tick fetch => simp [loop, ih]

/-- C12: `Run` terminates only on cancellation.  From every loop state, a
tick leads back to the waiting loop whatever the fetch returns and whatever
the callbacks of `w` return, and the loop goes on with the following events;
the `ctx.Done()` case makes `Run` return; and after any sequence of `select`
outcomes `Run` has returned if and only if one of them was `ctx.Done()`. -/
theorem run_terminates_only_on_cancellation
    (w : Watcher C σ J B D) (s : LoopState σ J B D)
    (fetch : Except GoError (ACPs J B D)) (rest : List (SelectCase J B D)) (world : σ) :
    loop w [SelectCase.tick fetch] s = (Status.waiting, tickCase w fetch s)
    ∧ loop w (SelectCase.tick fetch :: rest) s = loop w rest (tickCase w fetch s)
    ∧ loop w (SelectCase.done :: rest) s = (Status.returned, s)
    ∧ ((loop w rest s).1 = Status.returned ↔ SelectCase.done ∈ rest)
    ∧ ((Run w world rest).1 = Status.returned ↔ SelectCase.done ∈ rest) :=
  ⟨rfl, rfl, rfl, loop_returned_iff w rest s, loop_returned_iff w rest (initState world)⟩

end Termination

end Acp

namespace Acp

section Cancellation

variable {C σ J B D : Type}

theorem selectCase_done_of_cancelled (p : WaitPoint J B D) (hdone : p.ctxDone = true)
    (hpick : p.tickReady = false ∨ p.pickTick = false) :
    selectCase p = some SelectCase.done := by
  obtain ⟨t, c, k, f⟩ := p
  simp only at hdone hpick
  subst hdone
  cases t <;> cases k <;> simp [selectCase] at hpick ⊢

theorem selectCase_eq_none_iff (p : WaitPoint J B D) :
    selectCase p = none ↔ p.tickReady = false ∧ p.ctxDone = false := by
  obtain ⟨t, c, k, f⟩ := p
  cases t <;> cases c <;> cases k <;> simp [selectCase]

variable [DecidableEq J] [DecidableEq B] [DecidableEq D]

/-- The loop up to and including a wait point at which `select` takes the
`ctx.Done()` case: the state is the one reached before that point, and the
loop has returned unless it blocked earlier. -/
theorem loop_schedule_done (w : Watcher C σ J B D) (p : WaitPoint J B D)
    (hp : selectCase p = some SelectCase.done)
    (pre post : List (WaitPoint J B D)) (s : LoopState σ J B D) :
    (loop w (schedule (pre ++ p :: post)) s).2 = (loop w (schedule pre) s).2
    ∧ ((∀ q ∈ pre, q.tickReady = true ∨ q.ctxDone = true) →
        (loop w (schedule (pre ++ p :: post)) s).1 = Status.returned) := by
  induction pre generalizing s with
  | nil => simp [schedule, hp, loop]
  | cons q rest ih =>
    rcases hq : selectCase q with _ | c
    · refine ⟨by simp [schedule, hq], fun hready => ?_⟩
      have h1 := (selectCase_eq_none_iff q).mp hq
      have h2 := hready q (List.mem_cons_self _ _)
      rw [h1.1, h1.2] at h2
      simp at h2
    · cases c with
      | done => simp [schedule, hq, loop]
      | tick fetch =>
        obtain ⟨h1, h2⟩ := ih (tickCase w fetch s)
        refine ⟨by simpa [schedule, hq, loop] using h1, fun hready => ?_⟩
        have := h2 (fun q hq => hready q (List.mem_cons_of_mem _ hq))
        simpa [schedule, hq, loop] using this

/-- C13, as stated, fails: at a wait point where the context is already
cancelled and a tick is pending, `select` may take the tick case.  The run
of `exampleWatcher` then makes one more `GetACPs` call after that point, and,
when that fetch succeeds with a new set, invokes all three callbacks. -/
theorem run_cancelled_with_pending_tick_fetches :
    cancelledWithTick.ctxDone = true
    ∧ fetches (Run exampleWatcher [] (schedule [cancelledWithTick, cancelledIdle])).2.trace = 1
    ∧ calls (Run exampleWatcher []
        (schedule [{ cancelledWithTick with fetch := .ok setA }, cancelledIdle])).2.trace
        = round 3 setA :=
  ⟨rfl, rfl, rfl⟩

/-- C13, amended: when the loop waits with the context already cancelled and
`select` takes the `ctx.Done()` case there (it does whenever no tick is
pending at that wait point; with a tick pending the choice is random), `Run`
returns at that point and performs no further fetch and no further callback
invocation: whatever wait points follow, the final state, effects included,
is the one reached before that point, and `Run` has returned provided no
earlier `select` blocked for ever. -/
theorem run_cancelled_returns_at_wait_point
    (w : Watcher C σ J B D) (world : σ) (pre post : List (WaitPoint J B D))
    (p : WaitPoint J B D) (hdone : p.ctxDone = true)
    (hpick : p.tickReady = false ∨ p.pickTick = false) :
    (Run w world (schedule (pre ++ p :: post))).2 = (Run w world (schedule pre)).2
    ∧ fetches (Run w world (schedule (pre ++ p :: post))).2.trace
        = fetches (Run w world (schedule pre)).2.trace
    ∧ calls (Run w world (schedule (pre ++ p :: post))).2.trace
        = calls (Run w world (schedule pre)).2.trace
    ∧ ((∀ q ∈ pre, q.tickReady = true ∨ q.ctxDone = true) →
        (Run w world (schedule (pre ++ p :: post))).1 = Status.returned) := by
  obtain ⟨h1, h2⟩ := loop_schedule_done w p (selectCase_done_of_cancelled p hdone hpick)
    pre post (initState world)
  have h3 : (Run w world (schedule (pre ++ p :: post))).2 = (Run w world (schedule pre)).2 := h1
  exact ⟨h3, by rw [h3], by rw [h3], h2⟩

theorem run_cancelled_returns_at_wait_point_witness :
    cancelledIdle.ctxDone = true
    ∧ (cancelledIdle.tickReady = false ∨ cancelledIdle.pickTick = false)
    ∧ (Run exampleWatcher [] (schedule ([tickOnly (.ok setA)] ++ cancelledIdle
          :: [tickOnly (.ok setAB)]))).2
        = (Run exampleWatcher [] (schedule [tickOnly (.ok setA)])).2
    ∧ fetches (Run exampleWatcher [] (schedule ([tickOnly (.ok setA)] ++ cancelledIdle
          :: [tickOnly (.ok setAB)]))).2.trace
        = fetches (Run exampleWatcher [] (schedule [tickOnly (.ok setA)])).2.trace
    ∧ calls (Run exampleWatcher [] (schedule ([tickOnly (.ok setA)] ++ cancelledIdle
          :: [tickOnly (.ok setAB)]))).2.trace
        = calls (Run exampleWatcher [] (schedule [tickOnly (.ok setA)])).2.trace
    ∧ ((∀ q ∈ [tickOnly (.ok setA)], q.tickReady = true ∨ q.ctxDone = true) →
        (Run exampleWatcher [] (schedule ([tickOnly (.ok setA)] ++ cancelledIdle
          :: [tickOnly (.ok setAB)]))).1 = Status.returned) :=
  ⟨rfl, Or.inl rfl,
    run_cancelled_returns_at_wait_point exampleWatcher [] [tickOnly (.ok setA)]
      [tickOnly (.ok setAB)] cancelledIdle rfl (Or.inl rfl)⟩

end Cancellation

end Acp

namespace Acp

/-! ## Paths, precedence and visiting order -/

section Order

variable {J B D H : Type}

/-- The build of a well-formed map either succeeds with one route per entry
or returns an error; it never panics. -/
theorem buildRoutes_cases (deps : Deps J B D H) (cfgs : ACPs J B D) (hwf : cfgs.WF) :
    ((∀ e ∈ cfgs.entries, (entryRoute deps e).isSome = true)
      ∧ buildRoutes deps cfgs = .ok ⟨cfgs.entries.filterMap (entryRoute deps)⟩)
    ∨ ((∃ e ∈ cfgs.entries, (entryRoute deps e).isSome = false)
      ∧ ∃ err, buildRoutes deps cfgs = .error err) := by
  by_cases hall : ∀ e ∈ cfgs.entries, (entryRoute deps e).isSome = true
  · exact Or.inl ⟨hall, buildRoutes_ok deps cfgs hwf hall⟩
  · have hbad : ∃ e ∈ cfgs.entries, (entryRoute deps e).isSome = false := by
      by_contra hcon
      apply hall
      intro e he
      by_contra hne
      exact hcon ⟨e, he, by simpa using hne⟩
    obtain ⟨e, _, err, _, hres⟩ :=
      buildLoop_error deps cfgs.entries NewServeMux hwf (NewServeMux_paths_free _) hbad
    exact Or.inr ⟨hbad, err, hres⟩

theorem slash_paths_nodup (l : List (String × Config J B D)) (hnd : (l.map Prod.fst).Nodup) :
    (l.map (fun e => "/" ++ e.1)).Nodup := by
  have h : l.map (fun e => "/" ++ e.1) = (l.map Prod.fst).map (fun n => "/" ++ n) := by
    simp [List.map_map, Function.comp_def]
  rw [h]
  exact List.Nodup.map (fun a b hab => slash_append_injective hab) hnd

/-- C14: the path function `name ↦ "/" + name` of `buildRoutes` is
injective and never gives the empty string; so for every policy set (names
pairwise distinct) the paths the build registers are pairwise distinct, the
build never panics (the duplicate-registration and the empty-pattern failure
of the table are unreachable), and a returned table holds no path twice. -/
theorem buildRoutes_paths_never_collide
    (deps : Deps J B D H) (cfgs : ACPs J B D) (hwf : cfgs.WF) :
    (∀ a b : String, "/" ++ a = "/" ++ b → a = b)
    ∧ (∀ e ∈ cfgs.entries, "/" ++ e.1 ≠ "")
    ∧ (cfgs.entries.map (fun e => "/" ++ e.1)).Nodup
    ∧ (∀ msg, buildRoutes deps cfgs ≠ .panic msg)
    ∧ (∀ mux, buildRoutes deps cfgs = .ok mux → mux.paths.Nodup) := by
  refine ⟨fun a b h => slash_append_injective h, fun e _ => slash_append_ne_empty e.1,
    slash_paths_nodup _ hwf, ?_, ?_⟩
  · intro msg hmsg
    rcases buildRoutes_cases deps cfgs hwf with ⟨_, hok⟩ | ⟨_, err, herr⟩
    · rw [hok] at hmsg
      cases hmsg
    · rw [herr] at hmsg
      cases hmsg
  · intro mux hmux
    rcases buildRoutes_cases deps cfgs hwf with ⟨hall, hok⟩ | ⟨_, err, herr⟩
    · rw [hok] at hmux
      cases hmux
      show ((cfgs.entries.filterMap (entryRoute deps)).map Prod.fst).Nodup
      rw [routes_paths deps _ hall]
      exact slash_paths_nodup _ hwf
    · rw [herr] at hmux
      cases hmux

theorem buildRoutes_paths_never_collide_witness :
    GoMap.WF setAB
    ∧ (∀ a b : String, "/" ++ a = "/" ++ b → a = b)
    ∧ (∀ e ∈ GoMap.entries setAB, "/" ++ e.1 ≠ "")
    ∧ ((GoMap.entries setAB).map (fun e => "/" ++ e.1)).Nodup
    ∧ (∀ msg, buildRoutes exampleDeps setAB ≠ .panic msg)
    ∧ (∀ mux, buildRoutes exampleDeps setAB = .ok mux → mux.paths.Nodup) :=
  ⟨by decide, buildRoutes_paths_never_collide exampleDeps setAB (by decide)⟩

/-- C17: the loop body of `buildRoutes` selects the handler family by the
fixed precedence JWT, BasicAuth, DigestAuth.  For every config with a
populated variant it makes exactly one factory call, that of the first
populated variant in this order, with that variant's config and the name; a
config with JWT populated is built by the JWT factory alone: neither its
BasicAuth and DigestAuth fields nor the other two factories have any
influence on the result. -/
theorem buildRoutes_precedence_jwt_basic_digest
    (deps : Deps J B D H) (mux : ServeMux H) (name : String) (cfg : Config J B D)
    (hpop : cfg.populated ≠ 0) :
    (buildEntryTraced deps mux name cfg).1 = buildEntry deps mux name cfg
    ∧ (buildEntryTraced deps mux name cfg).2.length = 1
    ∧ (∀ j, cfg.JWT = some j →
        (buildEntryTraced deps mux name cfg).2 = [FactoryCall.jwt j name])
    ∧ (∀ b, cfg.JWT = none → cfg.BasicAuth = some b →
        (buildEntryTraced deps mux name cfg).2 = [FactoryCall.basicauth b name])
    ∧ (∀ d, cfg.JWT = none → cfg.BasicAuth = none → cfg.DigestAuth = some d →
        (buildEntryTraced deps mux name cfg).2 = [FactoryCall.digestauth d name])
    ∧ (∀ j, cfg.JWT = some j → ∀ (deps2 : Deps J B D H) (b2 : Option B) (d2 : Option D),
        deps2.jwtNewHandler = deps.jwtNewHandler → deps2.printTable = deps.printTable →
        buildEntryTraced deps2 mux name ⟨some j, b2, d2⟩ = buildEntryTraced deps mux name cfg
        ∧ buildEntry deps2 mux name ⟨some j, b2, d2⟩ = buildEntry deps mux name cfg) := by
  obtain ⟨j, b, d⟩ := cfg
  cases j with
  | some j =>
    refine ⟨rfl, rfl, ?_, ?_, ?_, ?_⟩
    · intro j1 h1
      cases h1
      rfl
    · intro b1 h1
      cases h1
    · intro d1 h1
      cases h1
    · intro j1 h1 deps2 b2 d2 hj hp
      cases h1
      simp only [buildEntryTraced, buildEntry, wrapCreate, hj, hp]
      exact ⟨trivial, trivial⟩
  | none =>
    cases b with
    | some b =>
      refine ⟨rfl, rfl, ?_, ?_, ?_, ?_⟩
      · intro j1 h1
        cases h1
      · intro b1 _ h1
        cases h1
        rfl
      · intro d1 _ h1
        cases h1
      · intro j1 h1
        cases h1
    | none =>
      cases d with
      | some d =>
        refine ⟨rfl, rfl, ?_, ?_, ?_, ?_⟩
        · intro j1 h1
          cases h1
        · intro b1 _ h1
          cases h1
        · intro d1 _ _ h1
          cases h1
          rfl
        · intro j1 h1
          cases h1
      | none => exact absurd rfl hpop

end Order

end Acp

namespace Acp

section OrderClaims

variable {J B D H : Type}

theorem buildRoutes_precedence_jwt_basic_digest_witness :
    Config.populated (⟨some 1, some 2, none⟩ : Config Nat Nat Nat) ≠ 0
    ∧ (buildEntryTraced exampleDeps NewServeMux "a" ⟨some 1, some 2, none⟩).1
        = buildEntry exampleDeps NewServeMux "a" ⟨some 1, some 2, none⟩
    ∧ (buildEntryTraced exampleDeps NewServeMux "a" ⟨some 1, some 2, none⟩).2.length = 1
    ∧ (∀ j, (⟨some 1, some 2, none⟩ : Config Nat Nat Nat).JWT = some j →
        (buildEntryTraced exampleDeps NewServeMux "a" ⟨some 1, some 2, none⟩).2
          = [FactoryCall.jwt j "a"])
    ∧ (∀ b, (⟨some 1, some 2, none⟩ : Config Nat Nat Nat).JWT = none →
        (⟨some 1, some 2, none⟩ : Config Nat Nat Nat).BasicAuth = some b →
        (buildEntryTraced exampleDeps NewServeMux "a" ⟨some 1, some 2, none⟩).2
          = [FactoryCall.basicauth b "a"])
    ∧ (∀ d, (⟨some 1, some 2, none⟩ : Config Nat Nat Nat).JWT = none →
        (⟨some 1, some 2, none⟩ : Config Nat Nat Nat).BasicAuth = none →
        (⟨some 1, some 2, none⟩ : Config Nat Nat Nat).DigestAuth = some d →
        (buildEntryTraced exampleDeps NewServeMux "a" ⟨some 1, some 2, none⟩).2
          = [FactoryCall.digestauth d "a"])
    ∧ (∀ j, (⟨some 1, some 2, none⟩ : Config Nat Nat Nat).JWT = some j →
        ∀ (deps2 : Deps Nat Nat Nat String) (b2 : Option Nat) (d2 : Option Nat),
        deps2.jwtNewHandler = exampleDeps.jwtNewHandler →
        deps2.printTable = exampleDeps.printTable →
        buildEntryTraced deps2 NewServeMux "a" ⟨some j, b2, d2⟩
          = buildEntryTraced exampleDeps NewServeMux "a" ⟨some 1, some 2, none⟩
        ∧ buildEntry deps2 NewServeMux "a" ⟨some j, b2, d2⟩
          = buildEntry exampleDeps NewServeMux "a" ⟨some 1, some 2, none⟩) :=
  ⟨by decide,
    buildRoutes_precedence_jwt_basic_digest exampleDeps NewServeMux "a"
      ⟨some 1, some 2, none⟩ (by decide)⟩

theorem lookup_eq_some_of_mem {V : Type} {l : List (String × V)}
    (hnd : (l.map Prod.fst).Nodup) {k : String} {v : V} (h : (k, v) ∈ l) :
    l.lookup k = some v := by
  induction l with
  | nil => simp at h
  | cons kv rest ih =>
    obtain ⟨k1, v1⟩ := kv
    rw [List.map_cons, List.nodup_cons] at hnd
    rcases List.mem_cons.mp h with heq | hmem
    · cases heq
      simp
    · have hne : k ≠ k1 := by
        intro heq
        subst heq
        exact hnd.1 (List.mem_map.mpr ⟨(k, v), hmem, rfl⟩)
      have hk : (k == k1) = false := by simpa using hne
      simp only [List.lookup_cons, hk]
      exact ih hnd.2 hmem

/-- Two association lists with distinct keys and the same entries give the
same lookups. -/
theorem lookup_eq_of_perm {V : Type} {l1 l2 : List (String × V)} (hp : l1.Perm l2)
    (hnd : (l1.map Prod.fst).Nodup) (k : String) : l1.lookup k = l2.lookup k := by
  have hnd2 : (l2.map Prod.fst).Nodup := ((hp.map Prod.fst).nodup_iff).mp hnd
  apply Option.ext
  intro v
  constructor
  · intro h
    exact lookup_eq_some_of_mem hnd2 (hp.mem_iff.mp (mem_of_lookup_eq_some h))
  · intro h
    exact lookup_eq_some_of_mem hnd (hp.mem_iff.mpr (mem_of_lookup_eq_some h))

theorem entryRoute_isSome_eq_false_iff (deps : Deps J B D H) (e : String × Config J B D) :
    (entryRoute deps e).isSome = false
      ↔ e.2.populated = 0
        ∨ ∃ kind cause, selectFactory deps e.1 e.2 = some (kind, .error cause) := by
  rw [← selectFactory_eq_none_iff deps e.1 e.2]
  unfold entryRoute
  rcases hsel : selectFactory deps e.1 e.2 with _ | ⟨kind, r⟩
  · simp
  · cases r <;> simp

end OrderClaims

end Acp

namespace Acp

section OrderIndependence

variable {J B D H : Type}

/-- C18: with deterministic handler factories, whether `buildRoutes` succeeds
does not depend on the order in which the entries are visited.  For any two
visiting orders `o1`, `o2` of the same policy set (names pairwise distinct),
either both builds fail with an error, or both succeed and the two tables
hold the same entries and give the same handler at every path.  The build
fails if and only if some entry has no populated variant or the factory
selected for it fails. -/
theorem buildRoutes_success_independent_of_order
    (deps : Deps J B D H) (cfgs : ACPs J B D) (o1 o2 : List (String × Config J B D))
    (hwf : cfgs.WF) (h1 : o1.Perm cfgs.entries) (h2 : o2.Perm cfgs.entries) :
    (((∃ err1, buildRoutes deps (some o1) = .error err1)
        ∧ (∃ err2, buildRoutes deps (some o2) = .error err2))
      ∨ ∃ m1 m2, buildRoutes deps (some o1) = .ok m1 ∧ buildRoutes deps (some o2) = .ok m2
          ∧ m1.m.Perm m2.m ∧ ∀ p, m1.handler p = m2.handler p)
    ∧ ((∃ err, buildRoutes deps (some o1) = .error err)
        ↔ ∃ e ∈ cfgs.entries, e.2.populated = 0
            ∨ ∃ kind cause, selectFactory deps e.1 e.2 = some (kind, .error cause)) := by
  have hnd1 : GoMap.WF (some o1) := ((h1.map Prod.fst).nodup_iff).mpr hwf
  have hnd2 : GoMap.WF (some o2) := ((h2.map Prod.fst).nodup_iff).mpr hwf
  have c1 := buildRoutes_cases deps (some o1) hnd1
  have c2 := buildRoutes_cases deps (some o2) hnd2
  simp only [GoMap.entries] at c1 c2
  constructor
  · rcases c1 with ⟨hall1, hok1⟩ | ⟨⟨e, he, hbad⟩, err1, herr1⟩
    · rcases c2 with ⟨hall2, hok2⟩ | ⟨⟨e, he, hbad⟩, _⟩
      · right
        refine ⟨_, _, hok1, hok2, (h1.trans h2.symm).filterMap _, fun p => ?_⟩
        refine lookup_eq_of_perm ((h1.trans h2.symm).filterMap _) ?_ p
        rw [routes_paths deps o1 hall1]
        exact slash_paths_nodup o1 hnd1
      · have := hall1 e (h1.mem_iff.mpr (h2.mem_iff.mp he))
        rw [hbad] at this
        cases this
    · rcases c2 with ⟨hall2, _⟩ | ⟨_, err2, herr2⟩
      · have := hall2 e (h2.mem_iff.mpr (h1.mem_iff.mp he))
        rw [hbad] at this
        cases this
      · exact Or.inl ⟨⟨err1, herr1⟩, ⟨err2, herr2⟩⟩
  · constructor
    · rintro ⟨err, herr⟩
      rcases c1 with ⟨_, hok1⟩ | ⟨⟨e, he, hbad⟩, _⟩
      · rw [hok1] at herr
        cases herr
      · exact ⟨e, h1.mem_iff.mp he, (entryRoute_isSome_eq_false_iff deps e).mp hbad⟩
    · rintro ⟨e, he, hbad⟩
      rcases c1 with ⟨hall1, _⟩ | ⟨_, herr⟩
      · have := hall1 e (h1.mem_iff.mpr he)
        rw [(entryRoute_isSome_eq_false_iff deps e).mpr hbad] at this
        cases this
      · exact herr

theorem buildRoutes_success_independent_of_order_witness :
    GoMap.WF setAB
    ∧ buildRoutes exampleDeps setAB = .ok ⟨[("/a", "jwt:a"), ("/b", "basic:b")]⟩
    ∧ buildRoutes exampleDeps setBA = .ok ⟨[("/b", "basic:b"), ("/a", "jwt:a")]⟩
    ∧ (((∃ err1, buildRoutes exampleDeps
            (some [("a", ⟨some 1, none, none⟩), ("b", ⟨none, some 2, none⟩)]) = .error err1)
        ∧ (∃ err2, buildRoutes exampleDeps
            (some [("b", ⟨none, some 2, none⟩), ("a", ⟨some 1, none, none⟩)]) = .error err2))
      ∨ ∃ m1 m2,
          buildRoutes exampleDeps
            (some [("a", ⟨some 1, none, none⟩), ("b", ⟨none, some 2, none⟩)]) = .ok m1
          ∧ buildRoutes exampleDeps
            (some [("b", ⟨none, some 2, none⟩), ("a", ⟨some 1, none, none⟩)]) = .ok m2
          ∧ m1.m.Perm m2.m ∧ ∀ p, m1.handler p = m2.handler p)
    ∧ ((∃ err, buildRoutes exampleDeps
          (some [("a", ⟨some 1, none, none⟩), ("b", ⟨none, some 2, none⟩)]) = .error err)
        ↔ ∃ e ∈ GoMap.entries setAB, e.2.populated = 0
            ∨ ∃ kind cause, selectFactory exampleDeps e.1 e.2 = some (kind, .error cause)) :=
  ⟨by decide, by decide, by decide,
    buildRoutes_success_independent_of_order exampleDeps setAB
      [("a", ⟨some 1, none, none⟩), ("b", ⟨none, some 2, none⟩)]
      [("b", ⟨none, some 2, none⟩), ("a", ⟨some 1, none, none⟩)]
      (by decide) (List.Perm.refl _) (List.Perm.swap _ _ _)⟩

end OrderIndependence

end Acp

namespace Acp

/-! ## The watcher over whole runs -/

section Runs

variable {C σ J B D : Type}

/-- Go `reflect.DeepEqual` of a map with itself. -/
theorem deepEqual_refl {V : Type} [DecidableEq V] (m : GoMap V) (hwf : m.WF) :
    deepEqual m m = true := by
  cases m with
  | none => rfl
  | some l =>
    rw [deepEqual_some_iff]
    exact ⟨rfl, fun kv hkv => lookup_eq_some_of_mem hwf hkv⟩

theorem lastFetched_isSome_iff {α : Type} (fs : List (Except GoError α)) :
    (lastFetched fs).isSome = true ↔ ∃ b, Except.ok b ∈ fs := by
  induction fs with
  | nil => simp [lastFetched]
  | cons f rest ih =>
    simp only [lastFetched]
    rcases hl : lastFetched rest with _ | b
    · have hno : ¬ ∃ b, Except.ok b ∈ rest := by
        rw [← ih, hl]
        simp
      cases f with
      | ok b =>
        simp only [Option.isSome_some, true_iff]
        exact ⟨b, List.mem_cons_self _ _⟩
      | error err =>
        simp only [Option.isSome_none, Bool.false_eq_true, false_iff]
        rintro ⟨b, hb⟩
        rcases List.mem_cons.mp hb with h | h
        · cases h
        · exact hno ⟨b, h⟩
    · obtain ⟨b1, hb1⟩ := ih.mp (by rw [hl]; rfl)
      simp only [Option.isSome_some, true_iff]
      exact ⟨b1, List.mem_cons_of_mem _ hb1⟩

variable [DecidableEq J] [DecidableEq B] [DecidableEq D]

/-- One cycle adds no callback invocation, or one full round in order. -/
theorem tickCase_calls (w : Watcher C σ J B D) (fetch : Except GoError (ACPs J B D))
    (s : LoopState σ J B D) :
    calls (tickCase w fetch s).trace = calls s.trace
    ∨ ∃ b, calls (tickCase w fetch s).trace
        = calls s.trace ++ round w.updateACPFuncs.length b := by
  cases fetch with
  | error err =>
    left
    rw [tickCase_error]
    simp [calls_append, calls]
  | ok b =>
    cases hd : deepEqual s.previousACPs b with
    | true =>
      left
      rw [tickCase_same w s b hd]
      simp [calls_append, calls]
    | false =>
      right
      obtain ⟨_, _, errs, ht⟩ := tickCase_changed w s b hd
      exact ⟨b, by rw [ht, calls_append, calls_changedEvents]; rfl⟩

/-- Over any sequence of `select` outcomes, the callback invocations are a
sequence of full rounds over the same callback list. -/
theorem loop_calls_rounds (w : Watcher C σ J B D) (sched : List (SelectCase J B D))
    (s : LoopState σ J B D) :
    ∃ bs : List (ACPs J B D), calls (loop w sched s).2.trace
      = calls s.trace ++ bs.flatMap (round w.updateACPFuncs.length) := by
  induction sched generalizing s with
  | nil => exact ⟨[], by simp [loop]⟩
  | cons c rest ih =>
    cases c with
    | done => exact ⟨[], by simp [loop]⟩
    | tick fetch =>
      obtain ⟨bs, hbs⟩ := ih (tickCase w fetch s)
      rcases tickCase_calls w fetch s with h | ⟨b, h⟩
      · exact ⟨bs, by simp only [loop]; rw [hbs, h]⟩
      · exact ⟨b :: bs, by simp only [loop]; rw [hbs, h]; simp⟩

/-- The snapshot after a sequence of ticks, by the last successful fetch. -/
theorem loop_snapshot_last_fetched (w : Watcher C σ J B D)
    (fs : List (Except GoError (ACPs J B D))) (hwf : ∀ b, Except.ok b ∈ fs → GoMap.WF b)
    (s : LoopState σ J B D) :
    (∀ b, lastFetched fs = some b →
        deepEqual (loop w (fs.map SelectCase.tick) s).2.previousACPs b = true)
    ∧ (lastFetched fs = none →
        (loop w (fs.map SelectCase.tick) s).2.previousACPs = s.previousACPs) := by
  induction fs generalizing s with
  | nil => simp [lastFetched, loop]
  | cons f rest ih =>
    obtain ⟨ih1, ih2⟩ := ih (fun b hb => hwf b (List.mem_cons_of_mem _ hb)) (tickCase w f s)
    simp only [List.map_cons, loop]
    rcases hl : lastFetched rest with _ | b1
    · have hprev := ih2 hl
      cases f with
      | error err =>
        have hnone : lastFetched (Except.error err :: rest) = none := by
          simp [lastFetched, hl]
        rw [hnone]
        refine ⟨fun b hb => (by cases hb), fun _ => ?_⟩
        rw [hprev, tickCase_error]
      | ok b =>
        have hsome : lastFetched (Except.ok b :: rest) = some b := by
          simp [lastFetched, hl]
        rw [hsome]
        refine ⟨fun b2 hb2 => ?_, fun h => by cases h⟩
        simp only [Option.some.injEq] at hb2
        subst hb2
        rw [hprev]
        cases hd : deepEqual s.previousACPs b with
        | true =>
          rw [tickCase_same w s b hd]
          exact hd
        | false =>
          rw [(tickCase_changed w s b hd).1]
          exact deepEqual_refl b (hwf b (List.mem_cons_self _ _))
    · have hsome : lastFetched (f :: rest) = some b1 := by
        simp [lastFetched, hl]
      rw [hsome]
      refine ⟨fun b hb => ?_, fun h => by cases h⟩
      simp only [Option.some.injEq] at hb
      subst hb
      exact ih1 b1 hl

end Runs

end Acp

namespace Acp

section RunInvariants

variable {C σ J B D : Type}

theorem lastFetched_failed {α : Type} (errs : List GoError) :
    lastFetched (errs.map (Except.error : GoError → Except GoError α)) = none := by
  induction errs with
  | nil => rfl
  | cons e rest ih => simp [lastFetched, ih]

/-- The last successful fetch of a sequence that ends with a success followed
by failures only. -/
theorem lastFetched_append_ok {α : Type} (pre : List (Except GoError α)) (b : α)
    (errs : List GoError) :
    lastFetched (pre ++ Except.ok b :: errs.map Except.error) = some b := by
  induction pre with
  | nil => simp [lastFetched, lastFetched_failed]
  | cons f rest ih => simp [lastFetched, ih]

variable [DecidableEq J] [DecidableEq B] [DecidableEq D]

/-- C15: for every client and callback list, `NewWatcher` returns a watcher
whose poll interval is exactly 30 seconds (30 000 000 000 ns), whose client
is the given client and whose callback list is the given list in the given
order; and `Run` never adds, removes or reorders callbacks: over any
sequence of `select` outcomes its callback invocations are a sequence of
full rounds `0, 1, ..., n-1` over that same list. -/
theorem NewWatcher_fixed_interval_and_callbacks
    (client : C) (fns : List (UpdatedACPFunc σ J B D)) (world : σ)
    (sched : List (SelectCase J B D)) :
    (NewWatcher client fns).refreshInterval = 30 * timeSecond
    ∧ (NewWatcher client fns).refreshInterval = 30000000000
    ∧ (NewWatcher client fns).client = client
    ∧ (NewWatcher client fns).updateACPFuncs = fns
    ∧ ∃ bs : List (ACPs J B D),
        calls (Run (NewWatcher client fns) world sched).2.trace
          = bs.flatMap (round fns.length) := by
  refine ⟨rfl, by norm_num [NewWatcher, timeSecond], rfl, rfl, ?_⟩
  obtain ⟨bs, hbs⟩ := loop_calls_rounds (NewWatcher client fns) sched (initState world)
  refine ⟨bs, ?_⟩
  unfold Run
  rw [hbs]
  simp [initState, calls, NewWatcher]

/-- C16: after any finite sequence of cycles `fs` (each a failed or a
successful fetch of a map with distinct names, with arbitrary callbacks):
if `fs` contains a successful fetch, the most recent one returning `b` (so
`fs` is some cycles, then the fetch of `b`, then failed fetches only), the
stored snapshot is deeply equal to `b` in the sense of the comparison used by
`Run`; and if `fs` contains no successful fetch, the snapshot is the initial
nil map. -/
theorem run_snapshot_tracks_last_successful_fetch
    (w : Watcher C σ J B D) (world : σ) (fs : List (Except GoError (ACPs J B D)))
    (hwf : ∀ b, Except.ok b ∈ fs → GoMap.WF b) :
    (∀ (pre : List (Except GoError (ACPs J B D))) (b : ACPs J B D) (errs : List GoError),
        fs = pre ++ Except.ok b :: errs.map Except.error →
        deepEqual (Run w world (fs.map SelectCase.tick)).2.previousACPs b = true)
    ∧ ((∀ b, Except.ok b ∉ fs) →
        (Run w world (fs.map SelectCase.tick)).2.previousACPs = none)
    ∧ (Run w world (fs.map SelectCase.tick)).1 = Status.waiting := by
  obtain ⟨h1, h2⟩ := loop_snapshot_last_fetched w fs hwf (initState world)
  refine ⟨?_, ?_, ?_⟩
  · intro pre b errs hfs
    exact h1 b (by rw [hfs]; exact lastFetched_append_ok pre b errs)
  · intro hno
    have hnone : lastFetched fs = none := by
      cases hl : lastFetched fs with
      | none => rfl
      | some b =>
        obtain ⟨b1, hb1⟩ := (lastFetched_isSome_iff fs).mp (by rw [hl]; rfl)
        exact absurd hb1 (hno b1)
    exact h2 hnone
  · cases hst : (Run w world (fs.map SelectCase.tick)).1 with
    | waiting => rfl
    | returned =>
      have := (loop_returned_iff w (fs.map SelectCase.tick) (initState world)).mp hst
      simp at this

theorem fetched_sets_wellformed :
    ∀ b, Except.ok b ∈ [Except.ok setAB, Except.ok setBA, Except.error (errorsNew "timeout")]
      → GoMap.WF b := by
  intro b hb
  simp only [List.mem_cons, Except.ok.injEq, List.mem_singleton, List.mem_nil_iff,
    or_false] at hb
  rcases hb with rfl | rfl | h
  · decide
  · decide
  · cases h

theorem run_snapshot_tracks_last_successful_fetch_witness :
    (Run exampleWatcher [] ([Except.ok setAB, Except.ok setBA,
        Except.error (errorsNew "timeout")].map SelectCase.tick)).2.previousACPs = setAB
    ∧ deepEqual (Run exampleWatcher [] ([Except.ok setAB, Except.ok setBA,
        Except.error (errorsNew "timeout")].map SelectCase.tick)).2.previousACPs setBA = true :=
  ⟨rfl,
    (run_snapshot_tracks_last_successful_fetch exampleWatcher []
      [Except.ok setAB, Except.ok setBA, Except.error (errorsNew "timeout")]
      fetched_sets_wellformed).1 [Except.ok setAB] setBA [errorsNew "timeout"] rfl⟩

end RunInvariants

end Acp
